import Mathlib

/-
Verification development for the woki-brain reservation engine.

Shallow embedding conventions, used uniformly below:

* Instants are natural numbers counting minutes.  The source stores
  instants as ISO-8601 UTC strings produced by `Date.toISOString()` and
  compares them either lexicographically or via `getTime()`; for such
  normalized strings both comparisons agree with the numeric order, so a
  single `Nat` per instant is faithful.  All quantities the engine
  manipulates (HH:MM window bounds, 15-minute slots, minute durations)
  are whole minutes.
* `b.start.startsWith(date)` (the UTC calendar-day filter used by the
  store) becomes `dayIndex b.start = date` with `dayIndex t = t / 1440`,
  and a date string `YYYY-MM-DD` becomes its day number.
* `toZonedIso(date, "HH:MM", tz)` becomes
  `resolveTime date tzOff hm = date * 1440 + hm + tzOff` where `hm` is
  the minute-of-day and `tzOff` is the number of minutes the zone lies
  behind UTC (the seeded deployment zone is UTC-3, `tzOff = 180`).
  Zones ahead of UTC are outside the model's range; no claim depends on
  them.
* The JS `Map`s of the in-memory store become association lists kept in
  insertion order; `Map.set` replaces in place or appends, matching JS
  iteration order.
* `Array.prototype.sort` (stable since ES2019) is modelled by a
  structural insertion sort `sortLe`, which is stable and therefore
  produces the same list as any stable sort agreeing with the
  comparator.
* The two source-level loops that are not structurally recursive
  (the candidate-start generator and the two-pointer gap intersection)
  are written with an explicit fuel argument; the fuel chosen at each
  call site provably dominates the number of iterations the source loop
  performs, so the functions compute the same lists.
* The `LockManager` serializes the critical section; the claims settled
  here are sequential properties, so `createBooking` is modelled as a
  pure state-passing function in which the locked section runs
  atomically.  `Date.now()` and the random id generator are passed in as
  the explicit arguments `now` and `fresh`.
-/

set_option maxHeartbeats 1000000

namespace WokiBrain

/-- Minutes per day; `dayIndex` models the `startsWith(date)` UTC-day test. -/
def dayIndex (t : Nat) : Nat := t / 1440

/-- Models `toZonedIso(date, time, timeZone)` from src/domain/gaps.ts:115:
the UTC instant of local minute-of-day `hm` on day `date` in a zone lying
`tzOff` minutes behind UTC. -/
def resolveTime (date tzOff hm : Nat) : Nat := date * 1440 + hm + tzOff

inductive BookingStatus
  | CONFIRMED
  | CANCELLED
  | PENDING
deriving DecidableEq, Repr

inductive CandidateKind
  | single
  | combo
deriving DecidableEq, Repr

/-- A free half-open interval `[start, end)` (src/domain/types.ts Gap). -/
structure Gap where
  start : Nat
  end_ : Nat
deriving DecidableEq, Repr

/-- src/domain/types.ts Booking (timestamps as minute counts). -/
structure Booking where
  id : String
  restaurantId : String
  sectorId : String
  tableIds : List String
  partySize : Nat
  start : Nat
  end_ : Nat
  durationMinutes : Nat
  status : BookingStatus
  createdAt : Nat
  updatedAt : Nat
deriving DecidableEq, Repr

/-- src/domain/types.ts Restaurant: service windows as (start, end)
minute-of-day pairs, `tzOff` the zone's minutes behind UTC, and the
optional `largeGroupThreshold` read by createBooking. -/
structure Restaurant where
  id : String
  tzOff : Nat
  windows : List (Nat × Nat)
  largeGroupThreshold : Option Nat
deriving DecidableEq, Repr

structure Sector where
  id : String
  restaurantId : String
deriving DecidableEq, Repr

/-- src/domain/types.ts Table with its capacity range. -/
structure Table where
  id : String
  sectorId : String
  minSize : Nat
  maxSize : Nat
deriving DecidableEq, Repr

/-- src/domain/blackouts.ts Blackout (reason and audit fields dropped:
no code path reads them). -/
structure Blackout where
  id : String
  tableId : String
  start : Nat
  end_ : Nat
deriving DecidableEq, Repr

/-- src/domain/waitlist.ts WaitlistEntry (contactInfo dropped: unused by
the engine). -/
structure WaitlistEntry where
  id : String
  restaurantId : String
  sectorId : String
  partySize : Nat
  durationMinutes : Nat
  date : Nat
  windowStart : Option Nat
  windowEnd : Option Nat
  createdAt : Nat
  expiresAt : Nat
deriving DecidableEq, Repr

/-- src/domain/types.ts Candidate; `score` and `rationale` are filled by
findCandidates (0 / "" before that pass, standing for `undefined`). -/
structure Candidate where
  kind : CandidateKind
  tableIds : List String
  start : Nat
  end_ : Nat
  minCapacity : Nat
  maxCapacity : Nat
  score : Nat
  rationale : String
deriving DecidableEq, Repr

/-- One entry of the idempotency cache of src/store/db.ts. -/
structure IdemEntry where
  key : String
  booking : Booking
  expiresAt : Nat
deriving DecidableEq, Repr

/-- The InMemoryDB of src/store/db.ts, Maps as insertion-ordered lists. -/
structure Store where
  restaurants : List Restaurant
  sectors : List Sector
  tables : List Table
  bookings : List Booking
  idempotencyCache : List IdemEntry
  blackouts : List Blackout
  waitlist : List WaitlistEntry
deriving DecidableEq, Repr

/-- Code-unit comparison of char lists: the order `<` that JS string
comparison (`sort()` default, `localeCompare` on ASCII ids) induces. -/
def chLt : List Char → List Char → Bool
  | [], [] => false
  | [], _ :: _ => true
  | _ :: _, [] => false
  | a :: as, b :: bs =>
    if a.toNat < b.toNat then true
    else if b.toNat < a.toNat then false
    else chLt as bs

def strLtB (a b : String) : Bool := chLt a.data b.data

/-- Whether `a` precedes-or-ties `b` in JS default string sort order. -/
def strLeB (a b : String) : Bool := !(strLtB b a)

/-- Three-way code-unit comparison of char lists. -/
def chCmp : List Char → List Char → Ordering
  | [], [] => .eq
  | [], _ :: _ => .lt
  | _ :: _, [] => .gt
  | a :: as, b :: bs =>
    if a.toNat < b.toNat then .lt
    else if b.toNat < a.toNat then .gt
    else chCmp as bs

def strCmpB (a b : String) : Ordering := chCmp a.data b.data

def natCmp (a b : Nat) : Ordering :=
  if a < b then .lt else if b < a then .gt else .eq

/-- Models `!x || x.trim().length === 0`: every character is whitespace
(the empty string included). -/
def isBlank (x : String) : Bool :=
  x.data.all (fun c => c.toNat = 32 || c.toNat = 9 || c.toNat = 10 || c.toNat = 13)

/-- Stable insertion of `x` into `l`: `x` goes before the first element
`y` with `le x y`. -/
def insertLe {α : Type} (le : α → α → Bool) (x : α) : List α → List α
  | [] => [x]
  | y :: ys => if le x y then x :: y :: ys else y :: insertLe le x ys

/-- Stable sort modelling `Array.prototype.sort` with a comparator whose
precedes-or-ties relation is `le`. -/
def sortLe {α : Type} (le : α → α → Bool) : List α → List α
  | [] => []
  | x :: xs => insertLe le x (sortLe le xs)

/-
Store accessors, from src/store/db.ts.
-/

def getRestaurant (s : Store) (id : String) : Option Restaurant :=
  s.restaurants.find? (fun r => r.id == id)

def getSector (s : Store) (id : String) : Option Sector :=
  s.sectors.find? (fun x => x.id == id)

def getBooking (s : Store) (id : String) : Option Booking :=
  s.bookings.find? (fun b => b.id == id)

def getTablesBySector (s : Store) (sectorId : String) : List Table :=
  s.tables.filter (fun t => t.sectorId == sectorId)

/-- db.getBookingsByTablesAndDate: CONFIRMED bookings starting on the
given UTC day that use at least one of the tables, sorted by start. -/
def getBookingsByTablesAndDate (s : Store) (tableIds : List String) (date : Nat) :
    List Booking :=
  sortLe (fun a b => a.start ≤ b.start)
    (s.bookings.filter (fun b =>
      b.status == BookingStatus.CONFIRMED && dayIndex b.start == date &&
        b.tableIds.any (fun tid => tableIds.contains tid)))

/-- db.createBooking via Map.set: replace in place if the id exists,
append otherwise. -/
def dbCreateBooking (s : Store) (b : Booking) : Store :=
  { s with bookings :=
      if s.bookings.any (fun x => x.id == b.id) then
        s.bookings.map (fun x => if x.id == b.id then b else x)
      else s.bookings ++ [b] }

/-- db.updateBooking restricted to the status updates the routes issue. -/
def updateBookingStatus (s : Store) (id : String) (st : BookingStatus) (now : Nat) :
    Store :=
  { s with bookings :=
      s.bookings.map (fun b =>
        if b.id == id then { b with status := st, updatedAt := now } else b) }

def deleteBooking (s : Store) (id : String) : Store :=
  { s with bookings := s.bookings.filter (fun b => !(b.id == id)) }

/-- db.setIdempotency with its 60-second TTL (one minute in this model's
units: `expiresAt = now + ttlMinutes`). -/
def setIdempotency (s : Store) (key : String) (b : Booking) (ttlMinutes now : Nat) :
    Store :=
  let e : IdemEntry := ⟨key, b, now + ttlMinutes⟩
  { s with idempotencyCache :=
      if s.idempotencyCache.any (fun x => x.key == key) then
        s.idempotencyCache.map (fun x => if x.key == key then e else x)
      else s.idempotencyCache ++ [e] }

/-- db.getIdempotency: a hit returns the stored booking untouched; an
expired entry is deleted and the lookup misses. -/
def getIdempotency (now : Nat) (key : String) (s : Store) : Option Booking × Store :=
  match s.idempotencyCache.find? (fun x => x.key == key) with
  | none => (none, s)
  | some e =>
    if e.expiresAt < now then
      (none, { s with idempotencyCache :=
        s.idempotencyCache.filter (fun x => !(x.key == key)) })
    else (some e.booking, s)

def getBlackoutsByTables (s : Store) (tableIds : List String) : List Blackout :=
  s.blackouts.filter (fun b => tableIds.contains b.tableId)

def createWaitlistEntry (s : Store) (e : WaitlistEntry) : Store :=
  { s with waitlist :=
      if s.waitlist.any (fun x => x.id == e.id) then
        s.waitlist.map (fun x => if x.id == e.id then e else x)
      else s.waitlist ++ [e] }

/-- db.getWaitlistEntriesBySectorAndDate: unexpired entries for the
sector and date, sorted by creation time. -/
def getWaitlistEntriesBySectorAndDate (s : Store) (sectorId : String) (date now : Nat) :
    List WaitlistEntry :=
  sortLe (fun a b => a.createdAt ≤ b.createdAt)
    (s.waitlist.filter (fun e =>
      e.sectorId == sectorId && e.date == date && now < e.expiresAt))

def deleteWaitlistEntry (s : Store) (id : String) : Store :=
  { s with waitlist := s.waitlist.filter (fun e => !(e.id == id)) }

/-
Interval engine, from src/domain/gaps.ts.
-/

/-- findGapsInWindow (src/domain/gaps.ts:65): keep the bookings
overlapping the window, sort them by start, sweep left to right
tracking the advancing free-from watermark, emit a gap before each
booking that starts strictly later, and a trailing gap to the window
end. -/
def findGapsInWindow (bookings : List Booking) (winStart winEnd : Nat) : List Gap :=
  let relevant := sortLe (fun a b => a.start ≤ b.start)
    (bookings.filter (fun b => b.start < winEnd && winStart < b.end_))
  let p := relevant.foldl
    (fun (p : Nat × List Gap) b =>
      let gs := if p.1 < b.start then p.2 ++ [⟨p.1, b.start⟩] else p.2
      (if p.1 < b.end_ then b.end_ else p.1, gs))
    (winStart, [])
  if p.1 < winEnd then p.2 ++ [⟨p.1, winEnd⟩] else p.2

/-- filterGapsByBlackouts (src/domain/blackouts.ts:65): split every gap
around the blackouts that overlap it; the caller passes the result of
`db.getBlackoutsByTables(tableIds)`. -/
def filterGapsByBlackouts (gaps : List Gap) (blackouts : List Blackout) : List Gap :=
  if blackouts.isEmpty then gaps
  else
    gaps.flatMap (fun gap =>
      let overlapping := blackouts.filter (fun bl =>
        bl.start < gap.end_ && gap.start < bl.end_)
      if overlapping.isEmpty then [gap]
      else
        let sorted := sortLe (fun a b => a.start ≤ b.start) overlapping
        let p := sorted.foldl
          (fun (p : Nat × List Gap) bl =>
            let gs := if p.1 < bl.start then p.2 ++ [⟨p.1, bl.start⟩] else p.2
            (max p.1 bl.end_, gs))
          (gap.start, [])
        if p.1 < gap.end_ then p.2 ++ [⟨p.1, gap.end_⟩] else p.2)

/-- findTableGaps (src/domain/gaps.ts:22): with no service windows the
whole day 00:00..23:59 is scanned and returned directly; with windows,
per-window gaps are concatenated and then blackout-filtered. -/
def findTableGaps (s : Store) (tableId : String) (date tzOff : Nat)
    (serviceWindows : List (Nat × Nat)) : List Gap :=
  let bookings := getBookingsByTablesAndDate s [tableId] date
  if serviceWindows.isEmpty then
    findGapsInWindow bookings (resolveTime date tzOff 0) (resolveTime date tzOff 1439)
  else
    let gaps := serviceWindows.flatMap (fun w =>
      findGapsInWindow bookings (resolveTime date tzOff w.1) (resolveTime date tzOff w.2))
    filterGapsByBlackouts gaps (getBlackoutsByTables s [tableId])

/-- The two-pointer loop of intersectGaps (src/domain/gaps.ts:200) with
an explicit fuel argument; each iteration drops one element from one of
the two lists, so fuel `l1.length + l2.length` never runs out. -/
def intersectLoop : Nat → List Gap → List Gap → List Gap
  | 0, _, _ => []
  | _ + 1, [], _ => []
  | _ + 1, _, [] => []
  | fuel + 1, g1 :: t1, g2 :: t2 =>
    let s := max g1.start g2.start
    let e := min g1.end_ g2.end_
    let rest :=
      if g1.end_ < g2.end_ then intersectLoop fuel t1 (g2 :: t2)
      else intersectLoop fuel (g1 :: t1) t2
    if s < e then ⟨s, e⟩ :: rest else rest

/-- intersectGaps (src/domain/gaps.ts:200): overlap of the current pair
is `[max(start1,start2), min(end1,end2))`, emitted when non-empty;
advance whichever cursor's gap ends first. -/
def intersectGaps (gaps1 gaps2 : List Gap) : List Gap :=
  intersectLoop (gaps1.length + gaps2.length) gaps1 gaps2

/-- findComboGaps (src/domain/gaps.ts:160): per-table gaps, iterated
pairwise intersection, then one more blackout filter over the combo. -/
def findComboGaps (s : Store) (tableIds : List String) (date tzOff : Nat)
    (serviceWindows : List (Nat × Nat)) : List Gap :=
  match tableIds with
  | [] => []
  | [t] => findTableGaps s t date tzOff serviceWindows
  | _ =>
    let tableGaps := tableIds.map (fun t => findTableGaps s t date tzOff serviceWindows)
    let inter := match tableGaps with
      | [] => []
      | l :: ls => ls.foldl intersectGaps l
    filterGapsByBlackouts inter (getBlackoutsByTables s tableIds)

/-- roundToSlot (src/domain/gaps.ts:292): the source rounds on
`getMinutes()`, the minute-of-hour, hence `(t % 60) % slot`; a time
already on a boundary is returned unchanged. -/
def roundToSlot (t slot : Nat) (up : Bool) : Nat :=
  let r := (t % 60) % slot
  if r = 0 then t
  else if up then t + (slot - r) else t - r

/-- The inner while-loop of filterGapsByDuration: one slot of exactly
`d` minutes per grid start, stepping by `slot`, while the slot still
fits before `e`.  Fuel `e + 1 - cur` dominates the iteration count
whenever `slot ≥ 1` (the only call passes 15). -/
def genStarts : Nat → Nat → Nat → Nat → Nat → List Gap
  | 0, _, _, _, _ => []
  | fuel + 1, slot, d, e, cur =>
    if cur + d ≤ e then ⟨cur, cur + d⟩ :: genStarts fuel slot d e (cur + slot)
    else []

/-- filterGapsByDuration (src/domain/gaps.ts:249): round each gap's
start up and end down to the slot grid, discard it if the rounded gap
is shorter than the duration, otherwise emit one candidate interval per
valid grid start. -/
def filterGapsByDuration (gaps : List Gap) (durationMinutes : Nat)
    (slotMinutes : Nat := 15) : List Gap :=
  gaps.flatMap (fun gap =>
    let rs := roundToSlot gap.start slotMinutes true
    let re := roundToSlot gap.end_ slotMinutes false
    if durationMinutes ≤ re - rs then
      genStarts (re + 1 - rs) slotMinutes durationMinutes re rs
    else [])

/-
Allocation strategy ("WokiBrain"), from the findCandidates /
selectBestCandidate source recorded in BONUS_FEATURES_CHANGELOG.md.
-/

/-- All subsets of `arr` of exactly `k` elements, in the order the
recursive backtracking of generateCombinations produces them. -/
def combosOfSize {α : Type} : Nat → List α → List (List α)
  | 0, _ => [[]]
  | _ + 1, [] => []
  | k + 1, x :: xs => (combosOfSize k xs).map (fun c => x :: c) ++ combosOfSize (k + 1) xs

/-- generateCombinations: all subsets of size `minSize` up to the full
length (empty when `minSize` is 0 or exceeds the length, matching the
source guard). -/
def generateCombinations {α : Type} (arr : List α) (minSize : Nat) : List (List α) :=
  if minSize = 0 || arr.length < minSize then []
  else (List.range (arr.length + 1 - minSize)).flatMap
    (fun i => combosOfSize (minSize + i) arr)

/-- calculateComboCapacity (src/domain/gaps.ts:9): plain sums of the
min and max sizes. -/
def calculateComboCapacity (tables : List Table) : Nat × Nat :=
  (tables.foldl (fun acc t => acc + t.minSize) 0,
   tables.foldl (fun acc t => acc + t.maxSize) 0)

/-- The table-id key the comparator's final tiebreak compares:
`tableIds.sort().join(',')`. -/
def joinedIds (ids : List String) : String :=
  String.intercalate "," (sortLe strLeB ids)

/-- The explicit sort comparator of findCandidates: kind (single
first), then start, then waste `maxCapacity − partySize`, then the
joined sorted table-id strings.  The score field is not consulted. -/
def candidateCmp (partySize : Nat) (a b : Candidate) : Ordering :=
  if a.kind ≠ b.kind then (if a.kind = CandidateKind.single then .lt else .gt)
  else if natCmp a.start b.start ≠ .eq then natCmp a.start b.start
  else if natCmp (a.maxCapacity - partySize) (b.maxCapacity - partySize) ≠ .eq then
    natCmp (a.maxCapacity - partySize) (b.maxCapacity - partySize)
  else strCmpB (joinedIds a.tableIds) (joinedIds b.tableIds)

/-- Whether `a` precedes-or-ties `b` under the findCandidates comparator. -/
def candLE (partySize : Nat) (a b : Candidate) : Bool :=
  candidateCmp partySize a b != Ordering.gt

/-- The display score: base 0 for single / 1000 for combo, plus 10 per
wasted seat, plus the bounded start-derived term
`Math.floor(startMs / 1000) % 10000` (start seconds mod 10000). -/
def scoreOf (partySize : Nat) (c : Candidate) : Nat :=
  (if c.kind = CandidateKind.single then 0 else 1000) +
    (c.maxCapacity - partySize) * 10 + (c.start * 60) % 10000

/-- The human-readable rationale string findCandidates attaches. -/
def rationaleOf (partySize : Nat) (c : Candidate) : String :=
  let waste := c.maxCapacity - partySize
  let kindPart := if c.kind = CandidateKind.single then "single table"
    else toString c.tableIds.length ++ "-table combo"
  let capPart := "capacity: " ++ toString c.minCapacity ++ "-" ++ toString c.maxCapacity
  let fitPart := if waste = 0 then "perfect fit"
    else toString waste ++ " seat" ++ (if 1 < waste then "s" else "") ++ " spare"
  kindPart ++ ", " ++ capPart ++ ", " ++ fitPart

/-- The requested-window clipping inside findCandidates: keep the
slots lying inside `[reqLo, reqHi]` when both bounds were supplied. -/
def clipToRequested (gaps : List Gap) : Option Nat → Option Nat → List Gap
  | some lo, some hi => gaps.filter (fun g => lo ≤ g.start && g.end_ ≤ hi)
  | _, _ => gaps

/-- The candidate-building body of findCandidates, after the
requested-window pre-filter has fixed `activeWindows` and the resolved
request bounds: single-table candidates for every table whose capacity
range contains the party, then combo candidates for every generated
combination whose summed range contains it; score and rationale are
then filled in, the list is sorted by the explicit comparator and
truncated to `limit`. -/
def buildCandidates (s : Store) (tables : List Table) (date partySize d tzOff : Nat)
    (activeWindows : List (Nat × Nat)) (reqLo reqHi : Option Nat) (limit : Nat) :
    List Candidate :=
  let singles := tables.flatMap (fun t =>
    if partySize < t.minSize || t.maxSize < partySize then []
    else
      let gaps := findTableGaps s t.id date tzOff activeWindows
      let valid := filterGapsByDuration gaps d 15
      let filtered := clipToRequested valid reqLo reqHi
      filtered.map (fun g =>
        ({ kind := CandidateKind.single, tableIds := [t.id], start := g.start,
           end_ := g.end_, minCapacity := t.minSize, maxCapacity := t.maxSize,
           score := 0, rationale := "" } : Candidate)))
  let combos := (generateCombinations (tables.map (fun t => t.id)) 2).flatMap
    (fun comboIds =>
      let comboTables := comboIds.filterMap (fun i => tables.find? (fun t => t.id == i))
      let cap := calculateComboCapacity comboTables
      if partySize < cap.1 || cap.2 < partySize then []
      else
        let gaps := findComboGaps s comboIds date tzOff activeWindows
        let valid := filterGapsByDuration gaps d 15
        let filtered := clipToRequested valid reqLo reqHi
        filtered.map (fun g =>
          ({ kind := CandidateKind.combo, tableIds := comboIds, start := g.start,
             end_ := g.end_, minCapacity := cap.1, maxCapacity := cap.2,
             score := 0, rationale := "" } : Candidate)))
  let scored := (singles ++ combos).map (fun c =>
    { c with score := scoreOf partySize c, rationale := rationaleOf partySize c })
  (sortLe (candLE partySize) scored).take limit

/-- findCandidates: empty sector short-circuits; a supplied requested
window first filters the service windows down to those it intersects
(none left means an empty result), then `buildCandidates` runs. -/
def findCandidates (s : Store) (sectorId : String) (date partySize d : Nat)
    (serviceWindows : List (Nat × Nat)) (tzOff : Nat) (reqS reqE : Option Nat)
    (limit : Nat) : List Candidate :=
  let tables := getTablesBySector s sectorId
  if tables.isEmpty then []
  else
    match reqS, reqE with
    | some u, some v =>
      let activeWindows := serviceWindows.filter (fun w =>
        resolveTime date tzOff u < resolveTime date tzOff w.2 &&
          resolveTime date tzOff w.1 < resolveTime date tzOff v)
      if activeWindows.isEmpty then []
      else buildCandidates s tables date partySize d tzOff activeWindows
        (some (resolveTime date tzOff u)) (some (resolveTime date tzOff v)) limit
    | _, _ =>
      buildCandidates s tables date partySize d tzOff serviceWindows none none limit

/-- selectBestCandidate: the head of findCandidates at limit 1. -/
def selectBestCandidate (s : Store) (sectorId : String) (date partySize d : Nat)
    (serviceWindows : List (Nat × Nat)) (tzOff : Nat) (reqS reqE : Option Nat) :
    Option Candidate :=
  (findCandidates s sectorId date partySize d serviceWindows tzOff reqS reqE 1).head?

/-
Booking transaction, from createBooking in src/domain/booking-service.ts
(the second half of src/src/domain/blackouts.ts as packed).
-/

/-- The request parameters of createBooking.  The date and HH:MM format
checks of the source are carried by the types (`date : Nat` day index,
windows as `Option Nat` minutes-of-day). -/
structure BookingArgs where
  restaurantId : String
  sectorId : String
  partySize : Nat
  durationMinutes : Nat
  date : Nat
  idempotencyKey : Option String
  windowStart : Option Nat
  windowEnd : Option Nat
deriving DecidableEq, Repr

/-- The four named failure conditions of the error taxonomy. -/
inductive BookingErr
  | invalid_input
  | not_found
  | no_capacity
  | outside_service_window
deriving DecidableEq, Repr

deriving instance DecidableEq for Except

/-- The input validation prologue of createBooking: non-blank ids,
positive party size, positive duration that is a multiple of 15, and
window start strictly before window end when both are given. -/
def validArgs (a : BookingArgs) : Bool :=
  !(isBlank a.restaurantId) && !(isBlank a.sectorId) &&
    a.partySize != 0 && a.durationMinutes != 0 && a.durationMinutes % 15 == 0 &&
    (match a.windowStart, a.windowEnd with
     | some u, some v => u < v
     | _, _ => true)

/-- The `largeGroupThreshold || 10` read (JS `||`: 0 and absence both
fall back to 10). -/
def effectiveThreshold (r : Restaurant) : Nat :=
  match r.largeGroupThreshold with
  | some t => if t = 0 then 10 else t
  | none => 10

/-- The requested-window containment validation of createBooking: it
compares raw `date T HH:MM` strings, i.e. local minutes with no
timezone resolution, and fires only when service windows are
configured and no single window contains the request. -/
def windowContainmentFails (a : BookingArgs) (r : Restaurant) : Bool :=
  match a.windowStart, a.windowEnd with
  | some u, some v =>
    !(r.windows.any (fun w => w.1 ≤ u && v ≤ w.2)) && !r.windows.isEmpty
  | _, _ => false

/-- The `hasConflict` test of createBooking's critical section: some
re-queried CONFIRMED booking overlaps the candidate interval under the
half-open rule `a < d && b > c`. -/
def hasConflictCheck (s : Store) (cand : Candidate) (date : Nat) : Bool :=
  (getBookingsByTablesAndDate s cand.tableIds date).any (fun b =>
    b.status == BookingStatus.CONFIRMED && b.start < cand.end_ && cand.start < b.end_)

/-- The commit inside the lock: re-query the confirmed bookings on the
candidate's tables for the date, fail with no_capacity on any half-open
overlap, otherwise persist the booking (PENDING for large groups,
CONFIRMED otherwise) and store the idempotency result. -/
def commitBooking (now : Nat) (fresh : String) (a : BookingArgs) (threshold : Nat)
    (cand : Candidate) (s : Store) : Except BookingErr Booking × Store :=
  if hasConflictCheck s cand a.date
  then (.error .no_capacity, s)
  else
    let st := if threshold ≤ a.partySize then BookingStatus.PENDING
      else BookingStatus.CONFIRMED
    let b : Booking :=
      ⟨fresh, a.restaurantId, a.sectorId, cand.tableIds, a.partySize,
        cand.start, cand.end_, a.durationMinutes, st, now, now⟩
    let s1 := dbCreateBooking s b
    let s2 := match a.idempotencyKey with
      | some k => setIdempotency s1 k b 1 now
      | none => s1
    (.ok b, s2)

/-- The critical section: the in-lock idempotency re-check, then the
commit. -/
def lockedSection (now : Nat) (fresh : String) (a : BookingArgs) (threshold : Nat)
    (cand : Candidate) (s : Store) : Except BookingErr Booking × Store :=
  match a.idempotencyKey with
  | some k =>
    let p := getIdempotency now k s
    match p.1 with
    | some b => (.ok b, p.2)
    | none => commitBooking now fresh a threshold cand p.2
  | none => commitBooking now fresh a threshold cand s

/-- The implicit-waitlist path taken when no candidate exists: enqueue
a waitlist entry (TTL 60 minutes) and persist a placeholder PENDING
booking with no tables, whose provisional start is the requested
window, else the first service window, else the current instant.
The source derives the booking id from the entry id by swapping the
`WL_` prefix for `BK_`. -/
def waitlistPathB (now : Nat) (fresh : String) (a : BookingArgs) (r : Restaurant)
    (s : Store) : Except BookingErr Booking × Store :=
  let entry : WaitlistEntry :=
    ⟨"WL_" ++ fresh, a.restaurantId, a.sectorId, a.partySize, a.durationMinutes,
      a.date, a.windowStart, a.windowEnd, now, now + 60⟩
  let s1 := createWaitlistEntry s entry
  let ps := match a.windowStart with
    | some u => resolveTime a.date r.tzOff u
    | none =>
      match r.windows.head? with
      | some w => resolveTime a.date r.tzOff w.1
      | none => now
  let b : Booking :=
    ⟨"BK_" ++ fresh, a.restaurantId, a.sectorId, [], a.partySize,
      ps, ps + a.durationMinutes, a.durationMinutes, BookingStatus.PENDING, now, now⟩
  (.ok b, dbCreateBooking s1 b)

/-- createBooking after the early idempotency check: resolve restaurant
and sector (ownership included), pick the best candidate, branch to the
implicit waitlist when there is none, otherwise run the containment
validation and the locked commit. -/
def createBookingCore (now : Nat) (fresh : String) (a : BookingArgs) (s : Store) :
    Except BookingErr Booking × Store :=
  match getRestaurant s a.restaurantId with
  | none => (.error .not_found, s)
  | some r =>
    match getSector s a.sectorId with
    | none => (.error .not_found, s)
    | some sec =>
      if sec.restaurantId != a.restaurantId then (.error .not_found, s)
      else
        match selectBestCandidate s a.sectorId a.date a.partySize a.durationMinutes
            r.windows r.tzOff a.windowStart a.windowEnd with
        | none => waitlistPathB now fresh a r s
        | some cand =>
          if windowContainmentFails a r then (.error .outside_service_window, s)
          else lockedSection now fresh a (effectiveThreshold r) cand s

/-- createBooking: validation, the pre-lock idempotency lookup, then
the core.  `now` models `Date.now()` and `fresh` the generated id
suffix. -/
def createBooking (now : Nat) (fresh : String) (a : BookingArgs) (s : Store) :
    Except BookingErr Booking × Store :=
  if !(validArgs a) then (.error .invalid_input, s)
  else
    match a.idempotencyKey with
    | some k =>
      let p := getIdempotency now k s
      match p.1 with
      | some b => (.ok b, p.2)
      | none => createBookingCore now fresh a p.2
    | none => createBookingCore now fresh a s

/-
Waitlist replay, from tryPromoteWaitlist in src/domain/waitlist.ts.
-/

/-- The frozen parameters a waitlist entry replays with: no idempotency
key is passed on promotion. -/
def entryArgs (e : WaitlistEntry) : BookingArgs :=
  ⟨e.restaurantId, e.sectorId, e.partySize, e.durationMinutes, e.date,
    none, e.windowStart, e.windowEnd⟩

/-- The loop of tryPromoteWaitlist: delete expired entries, retry the
booking transaction for each remaining entry in order, and on the first
success delete that entry and stop. -/
def promoteLoop (now : Nat) (fresh : String) :
    List WaitlistEntry → Store → List WaitlistEntry × Store
  | [], s => ([], s)
  | e :: rest, s =>
    if e.expiresAt < now then promoteLoop now fresh rest (deleteWaitlistEntry s e.id)
    else
      match createBooking now fresh (entryArgs e) s with
      | (.ok _, s1) => ([e], deleteWaitlistEntry s1 e.id)
      | (.error _, s1) => promoteLoop now fresh rest s1

/-- The list tryPromoteWaitlist iterates over: the unexpired entries
for the sector and date, sorted FIFO by creation time (the db already
sorts; the loop's own `entries.sort` re-sort is the outer one here). -/
def processedEntries (s : Store) (sectorId : String) (date now : Nat) :
    List WaitlistEntry :=
  sortLe (fun a b => a.createdAt ≤ b.createdAt)
    (getWaitlistEntriesBySectorAndDate s sectorId date now)

/-- tryPromoteWaitlist: load the unexpired entries for the sector and
date, sort them FIFO by creation time, and run the loop. -/
def tryPromoteWaitlist (now : Nat) (fresh : String) (sectorId : String) (date : Nat)
    (s : Store) : List WaitlistEntry × Store :=
  promoteLoop now fresh (processedEntries s sectorId date now) s

/-
HTTP-layer operations, from src/routes.ts.
-/

/-- assertWindowWithinService (src/routes.ts:109): ok when either bound
is missing or no windows are configured; otherwise some window must
overlap the timezone-resolved requested window. -/
def assertWindowWithinService (date tzOff : Nat) (reqS reqE : Option Nat)
    (windows : List (Nat × Nat)) : Bool :=
  match reqS, reqE with
  | some u, some v =>
    if windows.isEmpty then true
    else windows.any (fun w =>
      resolveTime date tzOff u < resolveTime date tzOff w.2 &&
        resolveTime date tzOff w.1 < resolveTime date tzOff v)
  | _, _ => true

/-- POST /woki/bookings with an explicit duration: the multiple-of-15
re-check, the restaurant lookup, the service-window pre-check, then
createBooking.  (The B1 duration-by-party-size default and the zod
schema are outside the modelled claims; the schema's checks reappear
inside createBooking's own validation.) -/
def postBooking (now : Nat) (fresh : String) (a : BookingArgs) (s : Store) :
    Except BookingErr Booking × Store :=
  if a.durationMinutes % 15 != 0 then (.error .invalid_input, s)
  else
    match getRestaurant s a.restaurantId with
    | none => (.error .not_found, s)
    | some r =>
      if !(assertWindowWithinService a.date r.tzOff a.windowStart a.windowEnd r.windows)
      then (.error .outside_service_window, s)
      else createBooking now fresh a s

/-- POST /woki/bookings/:id/approve: flip a PENDING booking to
CONFIRMED and return the updated record; no availability check is
performed. -/
def approveBooking (now : Nat) (id : String) (s : Store) :
    Except BookingErr Booking × Store :=
  match getBooking s id with
  | none => (.error .not_found, s)
  | some b =>
    if b.status != BookingStatus.PENDING then (.error .invalid_input, s)
    else
      let s1 := updateBookingStatus s id BookingStatus.CONFIRMED now
      (match getBooking s1 id with
       | some b2 => .ok b2
       | none => .error .not_found, s1)

/-- POST /woki/bookings/:id/reject: delete a PENDING booking. -/
def rejectBooking (id : String) (s : Store) : Except BookingErr Unit × Store :=
  match getBooking s id with
  | none => (.error .not_found, s)
  | some b =>
    if b.status != BookingStatus.PENDING then (.error .invalid_input, s)
    else (.ok (), deleteBooking s id)

/-- DELETE /woki/bookings/:id: delete the booking, then run waitlist
replay for its sector on the UTC day of its start
(`booking.start.split('T')[0]`). -/
def cancelBooking (now : Nat) (fresh : String) (id : String) (s : Store) :
    Except BookingErr Unit × Store :=
  match getBooking s id with
  | none => (.error .not_found, s)
  | some b =>
    let s1 := deleteBooking s id
    let p := tryPromoteWaitlist now fresh b.sectorId (dayIndex b.start) s1
    (.ok (), p.2)

/-
Helper lemmas about the stable sort.
-/

theorem mem_insertLe {α : Type} (le : α → α → Bool) (x a : α) (l : List α) :
    a ∈ insertLe le x l ↔ a = x ∨ a ∈ l := by
  induction l with
  | nil => simp [insertLe]
  | cons y ys ih =>
    unfold insertLe
    split
    · simp only [List.mem_cons]
    · simp only [List.mem_cons, ih]
      tauto

theorem mem_sortLe {α : Type} (le : α → α → Bool) (a : α) (l : List α) :
    a ∈ sortLe le l ↔ a ∈ l := by
  induction l with
  | nil => simp [sortLe]
  | cons y ys ih =>
    unfold sortLe
    rw [mem_insertLe, ih, List.mem_cons]

theorem pairwise_insertLe {α : Type} (le : α → α → Bool)
    (htot : ∀ a b, le a b = true ∨ le b a = true)
    (htrans : ∀ a b c, le a b = true → le b c = true → le a c = true)
    (x : α) (l : List α) (h : l.Pairwise (fun a b => le a b = true)) :
    (insertLe le x l).Pairwise (fun a b => le a b = true) := by
  induction l with
  | nil => simp [insertLe]
  | cons y ys ih =>
    rcases List.pairwise_cons.mp h with ⟨hy, hys⟩
    unfold insertLe
    split
    · rename_i hxy
      refine List.pairwise_cons.mpr ⟨?_, h⟩
      intro z hz
      rcases List.mem_cons.mp hz with rfl | hz
      · exact hxy
      · exact htrans x y z hxy (hy z hz)
    · rename_i hxy
      refine List.pairwise_cons.mpr ⟨?_, ih hys⟩
      intro z hz
      rcases (mem_insertLe le x z ys).mp hz with rfl | hz
      · rcases htot z y with hzy | hyz
        · exact absurd hzy hxy
        · exact hyz
      · exact hy z hz

theorem pairwise_sortLe {α : Type} (le : α → α → Bool)
    (htot : ∀ a b, le a b = true ∨ le b a = true)
    (htrans : ∀ a b c, le a b = true → le b c = true → le a c = true)
    (l : List α) : (sortLe le l).Pairwise (fun a b => le a b = true) := by
  induction l with
  | nil => simp [sortLe]
  | cons y ys ih => exact pairwise_insertLe le htot htrans y (sortLe le ys) ih

/-
Helper lemmas about the comparator orderings.
-/

theorem natCmp_lt_iff (a b : Nat) : natCmp a b = .lt ↔ a < b := by
  unfold natCmp
  split_ifs <;> simp_all <;> omega

theorem natCmp_gt_iff (a b : Nat) : natCmp a b = .gt ↔ b < a := by
  unfold natCmp
  split_ifs <;> simp_all <;> omega

theorem natCmp_eq_iff (a b : Nat) : natCmp a b = .eq ↔ a = b := by
  unfold natCmp
  split_ifs <;> simp_all <;> omega

theorem chCmp_gt_iff_lt (a b : List Char) : chCmp a b = .gt ↔ chCmp b a = .lt := by
  induction a generalizing b with
  | nil => cases b <;> simp [chCmp]
  | cons x xs ih =>
    cases b with
    | nil => simp [chCmp]
    | cons y ys =>
      simp only [chCmp]
      by_cases hxy : x.toNat < y.toNat
      · rw [if_pos hxy, if_neg (by omega), if_pos hxy]
        simp
      · by_cases hyx : y.toNat < x.toNat
        · rw [if_neg hxy, if_pos hyx, if_pos hyx]
          simp
        · rw [if_neg hxy, if_neg hyx, if_neg hyx, if_neg hxy]
          exact ih ys

theorem chCmp_swap (a b : List Char) : chCmp b a = (chCmp a b).swap := by
  induction a generalizing b with
  | nil => cases b <;> simp [chCmp, Ordering.swap]
  | cons x xs ih =>
    cases b with
    | nil => simp [chCmp, Ordering.swap]
    | cons y ys =>
      simp only [chCmp]
      rcases Nat.lt_trichotomy x.toNat y.toNat with h | h | h
      · have h' : ¬ y.toNat < x.toNat := by omega
        simp [h, h', Ordering.swap]
      · have h1 : ¬ x.toNat < y.toNat := by omega
        have h2 : ¬ y.toNat < x.toNat := by omega
        simp [h1, h2, ih]
      · have h' : ¬ x.toNat < y.toNat := by omega
        simp [h, h', Ordering.swap]

theorem chCmp_trans_ne_gt (a b c : List Char)
    (h1 : chCmp a b ≠ .gt) (h2 : chCmp b c ≠ .gt) : chCmp a c ≠ .gt := by
  induction a generalizing b c with
  | nil => cases c <;> simp [chCmp]
  | cons x xs ih =>
    cases b with
    | nil => simp [chCmp] at h1
    | cons y ys =>
      cases c with
      | nil => simp [chCmp] at h2
      | cons z zs =>
        simp only [chCmp] at h1 h2 ⊢
        by_cases hxz : x.toNat < z.toNat
        · rw [if_pos hxz]
          simp
        · by_cases hzx : z.toNat < x.toNat
          · exfalso
            by_cases hxy : x.toNat < y.toNat
            · rw [if_neg (by omega), if_pos (by omega)] at h2
              exact h2 rfl
            · by_cases hyx : y.toNat < x.toNat
              · rw [if_neg hxy, if_pos hyx] at h1
                exact h1 rfl
              · rw [if_neg (by omega), if_pos (by omega)] at h2
                exact h2 rfl
          · rw [if_neg hxz, if_neg hzx]
            by_cases hxy : x.toNat < y.toNat
            · rw [if_neg (by omega), if_pos (by omega)] at h2
              exact absurd rfl h2
            · by_cases hyx : y.toNat < x.toNat
              · rw [if_neg hxy, if_pos hyx] at h1
                exact absurd rfl h1
              · rw [if_neg hxy, if_neg hyx] at h1
                rw [if_neg (by omega), if_neg (by omega)] at h2
                exact ih ys zs h1 h2

theorem strCmpB_swap (a b : String) : strCmpB b a = (strCmpB a b).swap :=
  chCmp_swap a.data b.data

theorem strCmpB_trans_ne_gt (a b c : String)
    (h1 : strCmpB a b ≠ .gt) (h2 : strCmpB b c ≠ .gt) : strCmpB a c ≠ .gt :=
  chCmp_trans_ne_gt a.data b.data c.data h1 h2

theorem natCmp_swap (a b : Nat) : natCmp b a = (natCmp a b).swap := by
  unfold natCmp
  rcases Nat.lt_trichotomy a b with h | h | h
  · have h' : ¬ b < a := by omega
    simp [h, h', Ordering.swap]
  · have h1 : ¬ a < b := by omega
    have h2 : ¬ b < a := by omega
    simp [h1, h2, Ordering.swap]
  · have h' : ¬ a < b := by omega
    simp [h, h', Ordering.swap]

/-- The start/waste/id-string tail of the findCandidates comparator,
shared by the two equal-kind branches. -/
theorem cmpTail_trans (sa sb sc wa wb wc : Nat) (ja jb jc : String)
    (h1 : (if natCmp sa sb ≠ .eq then natCmp sa sb
           else if natCmp wa wb ≠ .eq then natCmp wa wb
           else strCmpB ja jb) ≠ .gt)
    (h2 : (if natCmp sb sc ≠ .eq then natCmp sb sc
           else if natCmp wb wc ≠ .eq then natCmp wb wc
           else strCmpB jb jc) ≠ .gt) :
    (if natCmp sa sc ≠ .eq then natCmp sa sc
     else if natCmp wa wc ≠ .eq then natCmp wa wc
     else strCmpB ja jc) ≠ .gt := by
  rcases Nat.lt_trichotomy sa sb with hs1 | hs1 | hs1
  · rcases Nat.lt_trichotomy sb sc with hs2 | hs2 | hs2
    · have h : natCmp sa sc = .lt := (natCmp_lt_iff _ _).mpr (by omega)
      rw [if_pos (by simp [h]), h]
      simp
    · have h : natCmp sa sc = .lt := (natCmp_lt_iff _ _).mpr (by omega)
      rw [if_pos (by simp [h]), h]
      simp
    · have h : natCmp sb sc = .gt := (natCmp_gt_iff _ _).mpr hs2
      rw [if_pos (by simp [h]), h] at h2
      exact absurd rfl h2
  · rcases Nat.lt_trichotomy sb sc with hs2 | hs2 | hs2
    · have h : natCmp sa sc = .lt := (natCmp_lt_iff _ _).mpr (by omega)
      rw [if_pos (by simp [h]), h]
      simp
    · -- all three starts equal: descend to the waste level
      have e1 : natCmp sa sb = .eq := (natCmp_eq_iff _ _).mpr hs1
      have e2 : natCmp sb sc = .eq := (natCmp_eq_iff _ _).mpr hs2
      have e3 : natCmp sa sc = .eq := (natCmp_eq_iff _ _).mpr (by omega)
      rw [if_neg (by simp [e1])] at h1
      rw [if_neg (by simp [e2])] at h2
      rw [if_neg (by simp [e3])]
      rcases Nat.lt_trichotomy wa wb with hw1 | hw1 | hw1
      · rcases Nat.lt_trichotomy wb wc with hw2 | hw2 | hw2
        · have h : natCmp wa wc = .lt := (natCmp_lt_iff _ _).mpr (by omega)
          rw [if_pos (by simp [h]), h]
          simp
        · have h : natCmp wa wc = .lt := (natCmp_lt_iff _ _).mpr (by omega)
          rw [if_pos (by simp [h]), h]
          simp
        · have h : natCmp wb wc = .gt := (natCmp_gt_iff _ _).mpr hw2
          rw [if_pos (by simp [h]), h] at h2
          exact absurd rfl h2
      · rcases Nat.lt_trichotomy wb wc with hw2 | hw2 | hw2
        · have h : natCmp wa wc = .lt := (natCmp_lt_iff _ _).mpr (by omega)
          rw [if_pos (by simp [h]), h]
          simp
        · have f1 : natCmp wa wb = .eq := (natCmp_eq_iff _ _).mpr hw1
          have f2 : natCmp wb wc = .eq := (natCmp_eq_iff _ _).mpr hw2
          have f3 : natCmp wa wc = .eq := (natCmp_eq_iff _ _).mpr (by omega)
          rw [if_neg (by simp [f1])] at h1
          rw [if_neg (by simp [f2])] at h2
          rw [if_neg (by simp [f3])]
          exact strCmpB_trans_ne_gt ja jb jc h1 h2
        · have h : natCmp wb wc = .gt := (natCmp_gt_iff _ _).mpr hw2
          rw [if_pos (by simp [h]), h] at h2
          exact absurd rfl h2
      · have h : natCmp wa wb = .gt := (natCmp_gt_iff _ _).mpr hw1
        rw [if_pos (by simp [h]), h] at h1
        exact absurd rfl h1
    · have h : natCmp sb sc = .gt := (natCmp_gt_iff _ _).mpr hs2
      rw [if_pos (by simp [h]), h] at h2
      exact absurd rfl h2
  · have h : natCmp sa sb = .gt := (natCmp_gt_iff _ _).mpr hs1
    rw [if_pos (by simp [h]), h] at h1
    exact absurd rfl h1

theorem candidateCmp_trans_ne_gt (p : Nat) (a b c : Candidate)
    (h1 : candidateCmp p a b ≠ .gt) (h2 : candidateCmp p b c ≠ .gt) :
    candidateCmp p a c ≠ .gt := by
  unfold candidateCmp at h1 h2 ⊢
  cases ka : a.kind <;> cases kb : b.kind <;> cases kc : c.kind <;>
    simp only [ka, kb, kc] at h1 h2 ⊢ <;>
    first
      | (exact cmpTail_trans _ _ _ _ _ _ _ _ _ (by simpa using h1) (by simpa using h2))
      | simp_all

/-- The start/waste/id-string tail commutes under swapping. -/
theorem cmpTail_swap (sa sb wa wb : Nat) (ja jb : String) :
    (if natCmp sb sa ≠ .eq then natCmp sb sa
     else if natCmp wb wa ≠ .eq then natCmp wb wa
     else strCmpB jb ja)
    = (if natCmp sa sb ≠ .eq then natCmp sa sb
       else if natCmp wa wb ≠ .eq then natCmp wa wb
       else strCmpB ja jb).swap := by
  rw [natCmp_swap sa sb, natCmp_swap wa wb, strCmpB_swap ja jb]
  cases natCmp sa sb <;> cases natCmp wa wb <;> simp [Ordering.swap]

theorem candidateCmp_swap (p : Nat) (a b : Candidate) :
    candidateCmp p b a = (candidateCmp p a b).swap := by
  unfold candidateCmp
  rcases ka : a.kind <;> rcases kb : b.kind
  · rw [if_neg (show ¬(CandidateKind.single ≠ CandidateKind.single) from by simp),
      if_neg (show ¬(CandidateKind.single ≠ CandidateKind.single) from by simp)]
    exact cmpTail_swap a.start b.start (a.maxCapacity - p) (b.maxCapacity - p)
      (joinedIds a.tableIds) (joinedIds b.tableIds)
  · simp [Ordering.swap]
  · simp [Ordering.swap]
  · rw [if_neg (show ¬(CandidateKind.combo ≠ CandidateKind.combo) from by simp),
      if_neg (show ¬(CandidateKind.combo ≠ CandidateKind.combo) from by simp)]
    exact cmpTail_swap a.start b.start (a.maxCapacity - p) (b.maxCapacity - p)
      (joinedIds a.tableIds) (joinedIds b.tableIds)

theorem candLE_eq_true_iff (p : Nat) (a b : Candidate) :
    candLE p a b = true ↔ candidateCmp p a b ≠ .gt := by
  unfold candLE
  cases candidateCmp p a b <;> decide

theorem candLE_total (p : Nat) (a b : Candidate) :
    candLE p a b = true ∨ candLE p b a = true := by
  rw [candLE_eq_true_iff, candLE_eq_true_iff, candidateCmp_swap p a b]
  cases candidateCmp p a b <;> simp [Ordering.swap]

theorem candLE_trans (p : Nat) (a b c : Candidate)
    (h1 : candLE p a b = true) (h2 : candLE p b c = true) : candLE p a c = true := by
  rw [candLE_eq_true_iff] at h1 h2 ⊢
  exact candidateCmp_trans_ne_gt p a b c h1 h2

/-
Structural lemmas about the candidate pipeline.
-/

theorem genStarts_shape (fuel slot d e : Nat) :
    ∀ cur, ∀ g ∈ genStarts fuel slot d e cur, g.end_ = g.start + d := by
  induction fuel with
  | zero => simp [genStarts]
  | succ n ih =>
    intro cur g hg
    unfold genStarts at hg
    split at hg
    · rcases List.mem_cons.mp hg with rfl | hg
      · rfl
      · exact ih _ g hg
    · simp at hg

theorem filterGapsByDuration_shape (gaps : List Gap) (d slot : Nat) :
    ∀ g ∈ filterGapsByDuration gaps d slot, g.end_ = g.start + d := by
  intro g hg
  unfold filterGapsByDuration at hg
  rcases List.mem_flatMap.mp hg with ⟨g0, _, hin⟩
  dsimp only at hin
  split at hin
  · exact genStarts_shape _ _ _ _ _ g hin
  · simp at hin

theorem mem_clipToRequested (gaps : List Gap) (a b : Option Nat) (g : Gap)
    (h : g ∈ clipToRequested gaps a b) : g ∈ gaps := by
  cases a <;> cases b <;> simp only [clipToRequested] at h <;>
    first
      | exact h
      | exact List.mem_of_mem_filter h

theorem mem_buildCandidates_interval (s : Store) (tables : List Table)
    (date partySize d tzOff : Nat) (aw : List (Nat × Nat)) (rLo rHi : Option Nat)
    (limit : Nat) (c : Candidate)
    (hc : c ∈ buildCandidates s tables date partySize d tzOff aw rLo rHi limit) :
    ∃ g : Gap, (∃ gaps0, g ∈ filterGapsByDuration gaps0 d 15) ∧
      c.start = g.start ∧ c.end_ = g.end_ := by
  unfold buildCandidates at hc
  have hc1 := List.mem_of_mem_take hc
  rw [mem_sortLe] at hc1
  rcases List.mem_map.mp hc1 with ⟨c0, hc0, rfl⟩
  rcases List.mem_append.mp hc0 with h | h
  · rcases List.mem_flatMap.mp h with ⟨t, _, hin⟩
    dsimp only at hin
    split at hin
    · simp at hin
    · rcases List.mem_map.mp hin with ⟨g, hg, rfl⟩
      exact ⟨g, ⟨_, mem_clipToRequested _ _ _ _ hg⟩, rfl, rfl⟩
  · rcases List.mem_flatMap.mp h with ⟨ids, _, hin⟩
    dsimp only at hin
    split at hin
    · simp at hin
    · rcases List.mem_map.mp hin with ⟨g, hg, rfl⟩
      exact ⟨g, ⟨_, mem_clipToRequested _ _ _ _ hg⟩, rfl, rfl⟩

theorem buildCandidates_pairwise (s : Store) (tables : List Table)
    (date partySize d tzOff : Nat) (aw : List (Nat × Nat)) (rLo rHi : Option Nat)
    (limit : Nat) :
    (buildCandidates s tables date partySize d tzOff aw rLo rHi limit).Pairwise
      (fun a b => candLE partySize a b = true) := by
  unfold buildCandidates
  exact List.Pairwise.sublist (List.take_sublist _ _)
    (pairwise_sortLe (candLE partySize) (candLE_total partySize)
      (candLE_trans partySize) _)

theorem buildCandidates_length (s : Store) (tables : List Table)
    (date partySize d tzOff : Nat) (aw : List (Nat × Nat)) (rLo rHi : Option Nat)
    (limit : Nat) :
    (buildCandidates s tables date partySize d tzOff aw rLo rHi limit).length ≤ limit := by
  unfold buildCandidates
  exact List.length_take_le _ _

theorem findCandidates_cases (s : Store) (sectorId : String)
    (date partySize d : Nat) (ws : List (Nat × Nat)) (tzOff : Nat)
    (reqS reqE : Option Nat) (limit : Nat) :
    findCandidates s sectorId date partySize d ws tzOff reqS reqE limit = [] ∨
    ∃ tables aw rLo rHi,
      findCandidates s sectorId date partySize d ws tzOff reqS reqE limit
        = buildCandidates s tables date partySize d tzOff aw rLo rHi limit := by
  unfold findCandidates
  dsimp only
  by_cases ht : (getTablesBySector s sectorId).isEmpty
  · left
    rw [if_pos ht]
  · rw [if_neg ht]
    rcases reqS with _ | u
    · exact Or.inr ⟨_, ws, none, none, rfl⟩
    · rcases reqE with _ | v
      · exact Or.inr ⟨_, ws, none, none, rfl⟩
      · dsimp only
        split
        · exact Or.inl rfl
        · exact Or.inr ⟨_, _, _, _, rfl⟩

/-- C6: the candidate list findCandidates returns is sorted by the
explicit tuple comparator — single before combo, then earliest start,
then smallest waste, then the joined sorted table-id strings — and
truncated to the requested limit; the comparator never reads the score
(or rationale) field, so the score cannot influence the order. -/
theorem findCandidates_ordering (s : Store) (sectorId : String)
    (date partySize d : Nat) (ws : List (Nat × Nat)) (tzOff : Nat)
    (reqS reqE : Option Nat) (limit : Nat) :
    (findCandidates s sectorId date partySize d ws tzOff reqS reqE limit).Pairwise
      (fun a b => candLE partySize a b = true)
    ∧ (findCandidates s sectorId date partySize d ws tzOff reqS reqE limit).length ≤ limit
    ∧ ∀ (a b : Candidate) (x y : Nat) (ra rb : String),
        candidateCmp partySize { a with score := x, rationale := ra }
          { b with score := y, rationale := rb } = candidateCmp partySize a b := by
  refine ⟨?_, ?_, fun a b x y ra rb => rfl⟩
  · rcases findCandidates_cases s sectorId date partySize d ws tzOff reqS reqE limit with
      h | ⟨tables, aw, rLo, rHi, h⟩
    · rw [h]
      exact List.Pairwise.nil
    · rw [h]
      exact buildCandidates_pairwise _ _ _ _ _ _ _ _ _ _
  · rcases findCandidates_cases s sectorId date partySize d ws tzOff reqS reqE limit with
      h | ⟨tables, aw, rLo, rHi, h⟩
    · rw [h]
      exact Nat.zero_le _
    · rw [h]
      exact buildCandidates_length _ _ _ _ _ _ _ _ _ _

/-- C10: every candidate findCandidates returns spans exactly the
requested duration: its end is its start plus `d` minutes, never the
full length of the underlying free gap. -/
theorem findCandidates_duration_exact (s : Store) (sectorId : String)
    (date partySize d : Nat) (ws : List (Nat × Nat)) (tzOff : Nat)
    (reqS reqE : Option Nat) (limit : Nat) (c : Candidate)
    (hc : c ∈ findCandidates s sectorId date partySize d ws tzOff reqS reqE limit) :
    c.end_ = c.start + d := by
  rcases findCandidates_cases s sectorId date partySize d ws tzOff reqS reqE limit with
    h | ⟨tables, aw, rLo, rHi, h⟩
  · rw [h] at hc
    simp at hc
  · rw [h] at hc
    rcases mem_buildCandidates_interval _ _ _ _ _ _ _ _ _ _ _ hc with
      ⟨g, ⟨gaps0, hg⟩, h1, h2⟩
    rw [h1, h2]
    exact filterGapsByDuration_shape gaps0 d 15 g hg

/-
Grid alignment (claim C5).
-/

theorem mem_genStarts (slot d e : Nat) (hs : 1 ≤ slot) :
    ∀ fuel cur, e + 1 ≤ cur + fuel →
    ∀ g : Gap, (g ∈ genStarts fuel slot d e cur ↔
      ∃ k, g.start = cur + slot * k ∧ g.end_ = g.start + d ∧ g.end_ ≤ e) := by
  intro fuel
  induction fuel with
  | zero =>
    intro cur hf g
    simp only [genStarts, List.not_mem_nil, false_iff]
    rintro ⟨k, h1, h2, h3⟩
    have := Nat.zero_le (slot * k)
    omega
  | succ n ih =>
    intro cur hf g
    unfold genStarts
    split
    · rename_i hfit
      constructor
      · intro hg
        rcases List.mem_cons.mp hg with rfl | hg
        · exact ⟨0, by simp, rfl, by simpa using hfit⟩
        · rcases (ih (cur + slot) (by omega) g).mp hg with ⟨k, h1, h2, h3⟩
          exact ⟨k + 1, by rw [h1, Nat.mul_succ]; omega, h2, h3⟩
      · rintro ⟨k, h1, h2, h3⟩
        cases k with
        | zero =>
          apply List.mem_cons.mpr
          left
          cases g
          simp only [Nat.mul_zero, Nat.add_zero] at h1
          simp only at h1 h2
          subst h1
          rw [h2]
        | succ m =>
          apply List.mem_cons.mpr
          right
          apply (ih (cur + slot) (by omega) g).mpr
          exact ⟨m, by rw [h1, Nat.mul_succ]; omega, h2, h3⟩
    · rename_i hfit
      simp only [List.not_mem_nil, false_iff]
      rintro ⟨k, h1, h2, h3⟩
      have := Nat.zero_le (slot * k)
      omega

/-- Membership characterization of the duration filter at the 15-minute
grid: an emitted slot is a grid offset of some gap's rounded start, of
exact length `d`, ending inside the rounded gap. -/
theorem mem_filterGapsByDuration (gaps : List Gap) (d : Nat) (g : Gap) :
    g ∈ filterGapsByDuration gaps d 15 ↔
      ∃ g0 ∈ gaps, ∃ k,
        g.start = roundToSlot g0.start 15 true + 15 * k ∧
        g.end_ = g.start + d ∧
        g.end_ ≤ roundToSlot g0.end_ 15 false := by
  unfold filterGapsByDuration
  rw [List.mem_flatMap]
  constructor
  · rintro ⟨g0, hg0, hin⟩
    dsimp only at hin
    split at hin
    · rcases (mem_genStarts 15 d (roundToSlot g0.end_ 15 false) (by omega)
          _ _ (by omega) g).mp hin with ⟨k, h1, h2, h3⟩
      exact ⟨g0, hg0, k, h1, h2, h3⟩
    · simp at hin
  · rintro ⟨g0, hg0, k, h1, h2, h3⟩
    refine ⟨g0, hg0, ?_⟩
    dsimp only
    have hz := Nat.zero_le (15 * k)
    rw [if_pos (by omega)]
    exact (mem_genStarts 15 d (roundToSlot g0.end_ 15 false) (by omega)
      _ _ (by omega) g).mpr ⟨k, h1, h2, h3⟩

theorem roundToSlot_up_aligned (t : Nat) : roundToSlot t 15 true % 15 = 0 := by
  unfold roundToSlot
  dsimp only
  rw [Nat.mod_mod_of_dvd t (by norm_num : (15 : Nat) ∣ 60)]
  split_ifs with h0 h1 <;> omega

theorem roundToSlot_down_aligned (t : Nat) : roundToSlot t 15 false % 15 = 0 := by
  unfold roundToSlot
  dsimp only
  rw [Nat.mod_mod_of_dvd t (by norm_num : (15 : Nat) ∣ 60)]
  split_ifs with h0 h1 <;> omega

/-- C5 (amended): the duration filter discards a gap too short after
rounding, and otherwise emits exactly one candidate interval per
grid-aligned start that leaves room for the full duration; every
emitted interval has exact length `d` and absolute-clock 15-minute
alignment of both endpoints (equivalently, alignment relative to any
15-minute-aligned window start — not relative to an arbitrary window
start), and every candidate findCandidates builds inherits that
alignment. -/
theorem filterGapsByDuration_grid (gaps : List Gap) (d : Nat) (hd : d % 15 = 0) :
    (∀ g ∈ filterGapsByDuration gaps d 15,
       g.end_ = g.start + d ∧ g.start % 15 = 0 ∧ g.end_ % 15 = 0 ∧
       ∃ g0 ∈ gaps, roundToSlot g0.start 15 true ≤ g.start ∧
         g.end_ ≤ roundToSlot g0.end_ 15 false)
    ∧ (∀ g0 ∈ gaps, ∀ t, t % 15 = 0 → roundToSlot g0.start 15 true ≤ t →
        t + d ≤ roundToSlot g0.end_ 15 false →
        (⟨t, t + d⟩ : Gap) ∈ filterGapsByDuration gaps d 15)
    ∧ ∀ (s : Store) (sectorId : String) (date partySize tzOff : Nat)
        (ws : List (Nat × Nat)) (reqS reqE : Option Nat) (limit : Nat),
        ∀ c ∈ findCandidates s sectorId date partySize d ws tzOff reqS reqE limit,
          c.start % 15 = 0 ∧ c.end_ % 15 = 0 := by
  have sound : ∀ g ∈ filterGapsByDuration gaps d 15,
      g.end_ = g.start + d ∧ g.start % 15 = 0 ∧ g.end_ % 15 = 0 ∧
      ∃ g0 ∈ gaps, roundToSlot g0.start 15 true ≤ g.start ∧
        g.end_ ≤ roundToSlot g0.end_ 15 false := by
    intro g hg
    rcases (mem_filterGapsByDuration gaps d g).mp hg with ⟨g0, hg0, k, h1, h2, h3⟩
    have ha := roundToSlot_up_aligned g0.start
    refine ⟨h2, by omega, by omega, g0, hg0, by omega, h3⟩
  refine ⟨sound, ?_, ?_⟩
  · intro g0 hg0 t ht hlo hhi
    have ha := roundToSlot_up_aligned g0.start
    apply (mem_filterGapsByDuration gaps d _).mpr
    exact ⟨g0, hg0, (t - roundToSlot g0.start 15 true) / 15, by simp; omega, rfl, by simpa using hhi⟩
  · intro s sectorId date partySize tzOff ws reqS reqE limit c hc
    rcases findCandidates_cases s sectorId date partySize d ws tzOff reqS reqE limit with
      h | ⟨tables, aw, rLo, rHi, h⟩
    · rw [h] at hc
      simp at hc
    · rw [h] at hc
      rcases mem_buildCandidates_interval _ _ _ _ _ _ _ _ _ _ _ hc with
        ⟨g, ⟨gaps0, hg⟩, h1, h2⟩
      rcases (mem_filterGapsByDuration gaps0 d g).mp hg with ⟨g0, _, k, e1, e2, _⟩
      have ha := roundToSlot_up_aligned g0.start
      constructor
      · rw [h1]
        omega
      · rw [h2]
        omega

/-
Gap intersection correctness (claim C8).
-/

/-- The instant `t` lies in the half-open interval of `g`. -/
def covers (g : Gap) (t : Nat) : Prop := g.start ≤ t ∧ t < g.end_

/-- The instant `t` is free according to the gap list `l`. -/
def coversAny (l : List Gap) (t : Nat) : Prop := ∃ g ∈ l, covers g t

/-- The precondition of the two-pointer merge: gaps sorted by start. -/
def sortedByStart (l : List Gap) : Prop := l.Pairwise (fun a b => a.start ≤ b.start)

instance (g : Gap) (t : Nat) : Decidable (covers g t) :=
  inferInstanceAs (Decidable (g.start ≤ t ∧ t < g.end_))

instance (l : List Gap) (t : Nat) : Decidable (coversAny l t) :=
  inferInstanceAs (Decidable (∃ g ∈ l, covers g t))

instance (l : List Gap) : Decidable (sortedByStart l) := by
  unfold sortedByStart
  infer_instance

theorem coversAny_cons (g : Gap) (l : List Gap) (t : Nat) :
    coversAny (g :: l) t ↔ covers g t ∨ coversAny l t := by
  simp [coversAny, List.mem_cons, exists_eq_or_imp]

theorem intersectLoop_lower : ∀ (fuel : Nat) (l1 l2 : List Gap) (c1 c2 : Nat),
    (∀ g ∈ l1, c1 ≤ g.start) → (∀ g ∈ l2, c2 ≤ g.start) →
    ∀ x ∈ intersectLoop fuel l1 l2, max c1 c2 ≤ x.start := by
  intro fuel
  induction fuel with
  | zero => simp [intersectLoop]
  | succ n ih =>
    intro l1 l2 c1 c2 h1 h2 x hx
    cases l1 with
    | nil => simp [intersectLoop] at hx
    | cons g1 t1 =>
      cases l2 with
      | nil => simp [intersectLoop] at hx
      | cons g2 t2 =>
        unfold intersectLoop at hx
        dsimp only at hx
        have hb1 : c1 ≤ g1.start := h1 g1 (List.mem_cons_self _ _)
        have hb2 : c2 ≤ g2.start := h2 g2 (List.mem_cons_self _ _)
        have hrest : ∀ y ∈ (if g1.end_ < g2.end_ then intersectLoop n t1 (g2 :: t2)
            else intersectLoop n (g1 :: t1) t2), max c1 c2 ≤ y.start := by
          intro y hy
          split at hy
          · exact ih t1 (g2 :: t2) c1 c2
              (fun g hg => h1 g (List.mem_cons_of_mem _ hg)) h2 y hy
          · exact ih (g1 :: t1) t2 c1 c2 h1
              (fun g hg => h2 g (List.mem_cons_of_mem _ hg)) y hy
        split at hx
        · rcases List.mem_cons.mp hx with rfl | hx
          · simp only
            omega
          · exact hrest x hx
        · exact hrest x hx

theorem intersectLoop_sorted : ∀ (fuel : Nat) (l1 l2 : List Gap),
    sortedByStart l1 → sortedByStart l2 →
    sortedByStart (intersectLoop fuel l1 l2) := by
  intro fuel
  induction fuel with
  | zero => simp [intersectLoop, sortedByStart]
  | succ n ih =>
    intro l1 l2 h1 h2
    cases l1 with
    | nil => simp [intersectLoop, sortedByStart]
    | cons g1 t1 =>
      cases l2 with
      | nil => simp [intersectLoop, sortedByStart]
      | cons g2 t2 =>
        unfold intersectLoop
        dsimp only
        rcases List.pairwise_cons.mp h1 with ⟨hg1, ht1⟩
        rcases List.pairwise_cons.mp h2 with ⟨hg2, ht2⟩
        have hrest : sortedByStart (if g1.end_ < g2.end_ then intersectLoop n t1 (g2 :: t2)
            else intersectLoop n (g1 :: t1) t2) := by
          split
          · exact ih t1 (g2 :: t2) ht1 h2
          · exact ih (g1 :: t1) t2 h1 ht2
        have hlow : ∀ y ∈ (if g1.end_ < g2.end_ then intersectLoop n t1 (g2 :: t2)
            else intersectLoop n (g1 :: t1) t2),
            max g1.start g2.start ≤ y.start := by
          intro y hy
          split at hy
          · exact intersectLoop_lower n t1 (g2 :: t2) g1.start g2.start hg1
              (fun g hg => by
                rcases List.mem_cons.mp hg with rfl | hg
                · exact Nat.le_refl _
                · exact hg2 g hg) y hy
          · exact intersectLoop_lower n (g1 :: t1) t2 g1.start g2.start
              (fun g hg => by
                rcases List.mem_cons.mp hg with rfl | hg
                · exact Nat.le_refl _
                · exact hg1 g hg) hg2 y hy
        split
        · exact List.pairwise_cons.mpr ⟨fun y hy => hlow y hy, hrest⟩
        · exact hrest

theorem intersectLoop_covers (t : Nat) : ∀ (fuel : Nat) (l1 l2 : List Gap),
    l1.length + l2.length ≤ fuel → sortedByStart l1 → sortedByStart l2 →
    (coversAny (intersectLoop fuel l1 l2) t ↔ coversAny l1 t ∧ coversAny l2 t) := by
  intro fuel
  induction fuel with
  | zero =>
    intro l1 l2 hlen h1 h2
    cases l1 with
    | nil => simp [intersectLoop, coversAny]
    | cons g1 t1 => simp at hlen
  | succ n ih =>
    intro l1 l2 hlen h1 h2
    cases l1 with
    | nil => simp [intersectLoop, coversAny]
    | cons g1 t1 =>
      cases l2 with
      | nil => simp [intersectLoop, coversAny]
      | cons g2 t2 =>
        unfold intersectLoop
        dsimp only
        rcases List.pairwise_cons.mp h1 with ⟨hg1, ht1⟩
        rcases List.pairwise_cons.mp h2 with ⟨hg2, ht2⟩
        by_cases hadv : g1.end_ < g2.end_
        · rw [if_pos hadv]
          have ihL := ih t1 (g2 :: t2) (by simp at hlen ⊢; omega) ht1 h2
          by_cases hemit : max g1.start g2.start < min g1.end_ g2.end_
          · rw [if_pos hemit, coversAny_cons, ihL]
            constructor
            · rintro (⟨hs, he⟩ | ⟨hA, hB⟩)
              · simp only at hs he
                exact ⟨⟨g1, List.mem_cons_self _ _, by omega, by omega⟩,
                  ⟨g2, List.mem_cons_self _ _, by omega, by omega⟩⟩
              · rcases hA with ⟨gA, hgA, hcA⟩
                exact ⟨⟨gA, List.mem_cons_of_mem _ hgA, hcA⟩, hB⟩
            · rintro ⟨⟨gA, hgA, hcA⟩, ⟨gB, hgB, hcB⟩⟩
              rcases List.mem_cons.mp hgA with rfl | hgA
              · rcases List.mem_cons.mp hgB with rfl | hgB
                · left
                  rcases hcA with ⟨ha1, ha2⟩
                  rcases hcB with ⟨hb1, hb2⟩
                  exact ⟨by simp only; omega, by simp only; omega⟩
                · left
                  rcases hcA with ⟨ha1, ha2⟩
                  rcases hcB with ⟨hb1, hb2⟩
                  have := hg2 gB hgB
                  exact ⟨by simp only; omega, by simp only; omega⟩
              · right
                exact ⟨⟨gA, hgA, hcA⟩, ⟨gB, hgB, hcB⟩⟩
          · rw [if_neg hemit, ihL]
            constructor
            · rintro ⟨hA, hB⟩
              rcases hA with ⟨gA, hgA, hcA⟩
              exact ⟨⟨gA, List.mem_cons_of_mem _ hgA, hcA⟩, hB⟩
            · rintro ⟨⟨gA, hgA, hcA⟩, ⟨gB, hgB, hcB⟩⟩
              rcases List.mem_cons.mp hgA with rfl | hgA
              · rcases List.mem_cons.mp hgB with rfl | hgB
                · rcases hcA with ⟨ha1, ha2⟩
                  rcases hcB with ⟨hb1, hb2⟩
                  exact (hemit (by omega)).elim
                · rcases hcA with ⟨ha1, ha2⟩
                  rcases hcB with ⟨hb1, hb2⟩
                  have := hg2 gB hgB
                  exact (hemit (by omega)).elim
              · exact ⟨⟨gA, hgA, hcA⟩, ⟨gB, hgB, hcB⟩⟩
        · rw [if_neg hadv]
          have ihL := ih (g1 :: t1) t2 (by simp at hlen ⊢; omega) h1 ht2
          by_cases hemit : max g1.start g2.start < min g1.end_ g2.end_
          · rw [if_pos hemit, coversAny_cons, ihL]
            constructor
            · rintro (⟨hs, he⟩ | ⟨hA, hB⟩)
              · simp only at hs he
                exact ⟨⟨g1, List.mem_cons_self _ _, by omega, by omega⟩,
                  ⟨g2, List.mem_cons_self _ _, by omega, by omega⟩⟩
              · rcases hB with ⟨gB, hgB, hcB⟩
                exact ⟨hA, ⟨gB, List.mem_cons_of_mem _ hgB, hcB⟩⟩
            · rintro ⟨⟨gA, hgA, hcA⟩, ⟨gB, hgB, hcB⟩⟩
              rcases List.mem_cons.mp hgB with rfl | hgB
              · left
                rcases hcB with ⟨hb1, hb2⟩
                rcases List.mem_cons.mp hgA with rfl | hgA
                · rcases hcA with ⟨ha1, ha2⟩
                  exact ⟨by simp only; omega, by simp only; omega⟩
                · rcases hcA with ⟨ha1, ha2⟩
                  have := hg1 gA hgA
                  exact ⟨by simp only; omega, by simp only; omega⟩
              · right
                exact ⟨⟨gA, hgA, hcA⟩, ⟨gB, hgB, hcB⟩⟩
          · rw [if_neg hemit, ihL]
            constructor
            · rintro ⟨hA, hB⟩
              rcases hB with ⟨gB, hgB, hcB⟩
              exact ⟨hA, ⟨gB, List.mem_cons_of_mem _ hgB, hcB⟩⟩
            · rintro ⟨⟨gA, hgA, hcA⟩, ⟨gB, hgB, hcB⟩⟩
              rcases List.mem_cons.mp hgB with rfl | hgB
              · rcases List.mem_cons.mp hgA with rfl | hgA
                · rcases hcA with ⟨ha1, ha2⟩
                  rcases hcB with ⟨hb1, hb2⟩
                  exact (hemit (by omega)).elim
                · rcases hcA with ⟨ha1, ha2⟩
                  rcases hcB with ⟨hb1, hb2⟩
                  have := hg1 gA hgA
                  exact (hemit (by omega)).elim
              · exact ⟨⟨gA, hgA, hcA⟩, ⟨gB, hgB, hcB⟩⟩

theorem intersectGaps_sorted (l1 l2 : List Gap) (h1 : sortedByStart l1)
    (h2 : sortedByStart l2) : sortedByStart (intersectGaps l1 l2) :=
  intersectLoop_sorted _ l1 l2 h1 h2

theorem intersectGaps_covers_iff (l1 l2 : List Gap) (h1 : sortedByStart l1)
    (h2 : sortedByStart l2) (t : Nat) :
    coversAny (intersectGaps l1 l2) t ↔ coversAny l1 t ∧ coversAny l2 t :=
  intersectLoop_covers t _ l1 l2 (Nat.le_refl _) h1 h2

theorem foldl_intersectGaps_covers (t : Nat) : ∀ (ls : List (List Gap)) (init : List Gap),
    sortedByStart init → (∀ l ∈ ls, sortedByStart l) →
    sortedByStart (ls.foldl intersectGaps init) ∧
    (coversAny (ls.foldl intersectGaps init) t ↔
      coversAny init t ∧ ∀ l ∈ ls, coversAny l t) := by
  intro ls
  induction ls with
  | nil =>
    intro init h _
    exact ⟨h, by simp⟩
  | cons l rest ih =>
    intro init hinit hls
    have hl : sortedByStart l := hls l (List.mem_cons_self _ _)
    have h1 : sortedByStart (intersectGaps init l) := intersectGaps_sorted _ _ hinit hl
    obtain ⟨hs, hiff⟩ := ih (intersectGaps init l) h1
      (fun x hx => hls x (List.mem_cons_of_mem _ hx))
    refine ⟨hs, ?_⟩
    simp only [List.foldl_cons]
    rw [hiff, intersectGaps_covers_iff init l hinit hl t, List.forall_mem_cons]
    tauto

/-- C8: on start-sorted inputs the two-pointer merge of intersectGaps
covers an instant exactly when both input gap lists cover it, and the
left fold findComboGaps performs extends this to any number of lists:
the fold covers an instant exactly when the seed list and every folded
list cover it. -/
theorem intersectGaps_exact (l1 l2 : List Gap) (h1 : sortedByStart l1)
    (h2 : sortedByStart l2) (ls : List (List Gap))
    (hls : ∀ l ∈ ls, sortedByStart l) (t : Nat) :
    (coversAny (intersectGaps l1 l2) t ↔ coversAny l1 t ∧ coversAny l2 t)
    ∧ (coversAny (ls.foldl intersectGaps l1) t ↔
        coversAny l1 t ∧ ∀ l ∈ ls, coversAny l t) :=
  ⟨intersectGaps_covers_iff l1 l2 h1 h2 t,
   (foldl_intersectGaps_covers t ls l1 h1 hls).2⟩

/-
Store-preservation lemmas for the booking transaction.
-/

theorem getIdempotency_bookings (now : Nat) (k : String) (s : Store) :
    ((getIdempotency now k s).2).bookings = s.bookings := by
  unfold getIdempotency
  split
  · rfl
  · split <;> rfl

theorem getIdempotency_waitlist (now : Nat) (k : String) (s : Store) :
    ((getIdempotency now k s).2).waitlist = s.waitlist := by
  unfold getIdempotency
  split
  · rfl
  · split <;> rfl

theorem getIdempotency_spec (now : Nat) (k : String) (s : Store) :
    (∃ e : IdemEntry, ¬ e.expiresAt < now ∧ getIdempotency now k s = (some e.booking, s)) ∨
    (getIdempotency now k s).1 = none := by
  unfold getIdempotency
  split
  · right
    rfl
  · rename_i e _
    split
    · right
      rfl
    · rename_i hne
      left
      exact ⟨e, hne, rfl⟩

theorem getIdempotency_hit_eq (now : Nat) (k : String) (s : Store) (b : Booking)
    (h : (getIdempotency now k s).1 = some b) :
    getIdempotency now k s = (some b, s) := by
  rcases getIdempotency_spec now k s with ⟨e, _, heq⟩ | hn
  · rw [heq] at h ⊢
    simp only [Option.some.injEq] at h
    rw [h]
  · rw [hn] at h
    simp at h

theorem setIdempotency_bookings (s : Store) (k : String) (b : Booking) (ttl now : Nat) :
    (setIdempotency s k b ttl now).bookings = s.bookings := rfl

theorem commitBooking_error_store (now : Nat) (fresh : String) (a : BookingArgs)
    (th : Nat) (cand : Candidate) (s : Store) (e : BookingErr) (s' : Store)
    (h : commitBooking now fresh a th cand s = (.error e, s')) : s' = s := by
  unfold commitBooking at h
  by_cases hc : hasConflictCheck s cand a.date = true
  · rw [if_pos hc] at h
    simp only [Prod.mk.injEq] at h
    exact h.2.symm
  · rw [if_neg hc] at h
    simp at h

theorem createBookingCore_error_bookings (now : Nat) (fresh : String) (a : BookingArgs)
    (s : Store) (e : BookingErr) (s' : Store)
    (h : createBookingCore now fresh a s = (.error e, s')) : s'.bookings = s.bookings := by
  unfold createBookingCore at h
  split at h
  · simp only [Prod.mk.injEq] at h
    rw [← h.2]
  · split at h
    · simp only [Prod.mk.injEq] at h
      rw [← h.2]
    · split at h
      · simp only [Prod.mk.injEq] at h
        rw [← h.2]
      · split at h
        · unfold waitlistPathB at h
          simp at h
        · split at h
          · simp only [Prod.mk.injEq] at h
            rw [← h.2]
          · unfold lockedSection at h
            split at h
            · dsimp only at h
              split at h
              · simp at h
              · have := commitBooking_error_store _ _ _ _ _ _ _ _ h
                rw [this, getIdempotency_bookings]
            · exact (commitBooking_error_store _ _ _ _ _ _ _ _ h) ▸ rfl

/-- C9: whenever createBooking terminates with one of the four failure
conditions, the booking store is unchanged: no Booking record is
created, updated or deleted by that call (the only writes sit on the
two successful return paths). -/
theorem createBooking_error_bookings_unchanged (now : Nat) (fresh : String)
    (a : BookingArgs) (s : Store) (e : BookingErr) (s' : Store)
    (h : createBooking now fresh a s = (.error e, s')) : s'.bookings = s.bookings := by
  unfold createBooking at h
  split at h
  · simp only [Prod.mk.injEq] at h
    rw [← h.2]
  · split at h
    · dsimp only at h
      split at h
      · simp at h
      · have := createBookingCore_error_bookings _ _ _ _ _ _ h
        rw [this, getIdempotency_bookings]
    · exact createBookingCore_error_bookings _ _ _ _ _ _ h

/-
Idempotency (claim C7).
-/

theorem createBooking_ok_valid (now : Nat) (fresh : String) (a : BookingArgs)
    (s : Store) (b : Booking) (s' : Store)
    (h : createBooking now fresh a s = (.ok b, s')) : validArgs a = true := by
  unfold createBooking at h
  split at h
  · simp at h
  · rename_i hv
    simpa using hv

/-- C7: a second createBooking call with the same idempotency key and
payload, made while the result stored by a first successful call is
still cached unexpired, returns the very same Booking and leaves the
whole store untouched — the same identity comes back and no second
Booking record is created. -/
theorem createBooking_idempotent_replay (now1 now2 : Nat) (f1 f2 k : String)
    (a : BookingArgs) (hk : a.idempotencyKey = some k) (s0 s1 : Store) (b1 : Booking)
    (h1 : createBooking now1 f1 a s0 = (.ok b1, s1))
    (hcached : (getIdempotency now2 k s1).1 = some b1) :
    createBooking now2 f2 a s1 = (.ok b1, s1) := by
  have hv := createBooking_ok_valid _ _ _ _ _ _ h1
  unfold createBooking
  rw [if_neg (by simp [hv]), hk]
  dsimp only
  rw [getIdempotency_hit_eq now2 k s1 b1 hcached]

/-
The CONFIRMED-no-overlap invariant (claim C1).
-/

/-- The invariant exactly as the spec states it: no two CONFIRMED
bookings sharing a table have overlapping half-open intervals. -/
def ConfirmedDisjoint (l : List Booking) : Prop :=
  l.Pairwise (fun b1 b2 => b1.status = .CONFIRMED → b2.status = .CONFIRMED →
    (∃ tid ∈ b1.tableIds, tid ∈ b2.tableIds) →
    ¬ (b1.start < b2.end_ ∧ b2.start < b1.end_))

/-- The invariant restricted to CONFIRMED bookings starting on the same
UTC day — the scope the store's day filter actually protects. -/
def ConfirmedDisjointDay (l : List Booking) : Prop :=
  l.Pairwise (fun b1 b2 => b1.status = .CONFIRMED → b2.status = .CONFIRMED →
    dayIndex b1.start = dayIndex b2.start →
    (∃ tid ∈ b1.tableIds, tid ∈ b2.tableIds) →
    ¬ (b1.start < b2.end_ ∧ b2.start < b1.end_))

instance (l : List Booking) : Decidable (ConfirmedDisjoint l) := by
  unfold ConfirmedDisjoint
  infer_instance

instance (l : List Booking) : Decidable (ConfirmedDisjointDay l) := by
  unfold ConfirmedDisjointDay
  infer_instance

theorem confirmedDisjointDay_congr (l l' : List Booking) (h : l' = l)
    (hl : ConfirmedDisjointDay l) : ConfirmedDisjointDay l' := h ▸ hl

theorem confirmedDisjointDay_append (l : List Booking) (b : Booking)
    (hl : ConfirmedDisjointDay l)
    (hb : ∀ x ∈ l, x.status = .CONFIRMED → b.status = .CONFIRMED →
      dayIndex x.start = dayIndex b.start → (∃ tid ∈ x.tableIds, tid ∈ b.tableIds) →
      ¬ (x.start < b.end_ ∧ b.start < x.end_)) :
    ConfirmedDisjointDay (l ++ [b]) := by
  unfold ConfirmedDisjointDay at *
  rw [List.pairwise_append]
  refine ⟨hl, List.pairwise_singleton _ _, ?_⟩
  intro x hx y hy
  rw [List.mem_singleton] at hy
  subst hy
  exact hb x hx

theorem dbCreateBooking_append (s : Store) (b : Booking)
    (h : ∀ x ∈ s.bookings, x.id ≠ b.id) :
    (dbCreateBooking s b).bookings = s.bookings ++ [b] := by
  unfold dbCreateBooking
  have hany : s.bookings.any (fun x => x.id == b.id) = false := by
    rw [List.any_eq_false]
    intro x hx
    simpa using h x hx
  rw [hany]
  rfl

theorem mem_getBookingsByTablesAndDate (s : Store) (tids : List String) (date : Nat)
    (x : Booking) (hx : x ∈ s.bookings) (hst : x.status = .CONFIRMED)
    (hday : dayIndex x.start = date) (hshare : ∃ tid ∈ x.tableIds, tid ∈ tids) :
    x ∈ getBookingsByTablesAndDate s tids date := by
  unfold getBookingsByTablesAndDate
  rw [mem_sortLe, List.mem_filter]
  refine ⟨hx, ?_⟩
  rcases hshare with ⟨tid, htid, htids⟩
  simp only [Bool.and_eq_true, beq_iff_eq, List.any_eq_true]
  exact ⟨⟨hst, by simpa using hday⟩, tid, htid, by simpa using htids⟩

theorem hasConflictCheck_false (s : Store) (cand : Candidate) (date : Nat)
    (hc : hasConflictCheck s cand date = false) :
    ∀ x ∈ s.bookings, x.status = .CONFIRMED → dayIndex x.start = date →
      (∃ tid ∈ x.tableIds, tid ∈ cand.tableIds) →
      ¬ (x.start < cand.end_ ∧ cand.start < x.end_) := by
  intro x hx hst hday hshare hover
  unfold hasConflictCheck at hc
  rw [List.any_eq_false] at hc
  have hmem := mem_getBookingsByTablesAndDate s cand.tableIds date x hx hst hday hshare
  have := hc x hmem
  simp only [Bool.and_eq_true, beq_iff_eq, decide_eq_true_eq, not_and] at this
  exact this ⟨hst, hover.1⟩ hover.2

theorem commitBooking_preserves (now : Nat) (fresh : String) (a : BookingArgs)
    (th : Nat) (cand : Candidate) (s : Store) (r : Except BookingErr Booking)
    (s' : Store) (h : commitBooking now fresh a th cand s = (r, s'))
    (hinv : ConfirmedDisjointDay s.bookings)
    (hids : ∀ x ∈ s.bookings, x.id ≠ fresh)
    (hday : ∀ b, r = .ok b → b.status = .CONFIRMED → dayIndex b.start = a.date) :
    ConfirmedDisjointDay s'.bookings := by
  unfold commitBooking at h
  by_cases hc : hasConflictCheck s cand a.date = true
  · rw [if_pos hc] at h
    simp only [Prod.mk.injEq] at h
    exact h.2 ▸ hinv
  · rw [if_neg hc] at h
    dsimp only at h
    simp only [Prod.mk.injEq] at h
    obtain ⟨hr, hs⟩ := h
    have hbk : s'.bookings = (dbCreateBooking s
        ⟨fresh, a.restaurantId, a.sectorId, cand.tableIds, a.partySize, cand.start,
          cand.end_, a.durationMinutes,
          (if th ≤ a.partySize then BookingStatus.PENDING else BookingStatus.CONFIRMED),
          now, now⟩).bookings := by
      rw [← hs]
      cases a.idempotencyKey <;> rfl
    rw [hbk, dbCreateBooking_append s _ (fun x hx => hids x hx)]
    apply confirmedDisjointDay_append s.bookings _ hinv
    intro x hx hxc hbc hdayx hshare hover
    have hcf := hasConflictCheck_false s cand a.date (by simpa using hc)
    have hbday : dayIndex
        (⟨fresh, a.restaurantId, a.sectorId, cand.tableIds, a.partySize, cand.start,
          cand.end_, a.durationMinutes,
          (if th ≤ a.partySize then BookingStatus.PENDING else BookingStatus.CONFIRMED),
          now, now⟩ : Booking).start = a.date := by
      apply hday _ hr.symm hbc
    exact hcf x hx hxc (by simpa using hdayx.trans hbday) (by simpa using hshare)
      (by simpa using hover)

theorem createBookingCore_preserves (now : Nat) (fresh : String) (a : BookingArgs)
    (s : Store) (r : Except BookingErr Booking) (s' : Store)
    (h : createBookingCore now fresh a s = (r, s'))
    (hinv : ConfirmedDisjointDay s.bookings)
    (hids : ∀ x ∈ s.bookings, x.id ≠ fresh ∧ x.id ≠ "BK_" ++ fresh)
    (hday : ∀ b, r = .ok b → b.status = .CONFIRMED → dayIndex b.start = a.date) :
    ConfirmedDisjointDay s'.bookings := by
  unfold createBookingCore at h
  split at h
  · simp only [Prod.mk.injEq] at h
    exact h.2 ▸ hinv
  · split at h
    · simp only [Prod.mk.injEq] at h
      exact h.2 ▸ hinv
    · split at h
      · simp only [Prod.mk.injEq] at h
        exact h.2 ▸ hinv
      · split at h
        · unfold waitlistPathB at h
          dsimp only at h
          simp only [Prod.mk.injEq] at h
          obtain ⟨hr, hs⟩ := h
          rw [← hs, dbCreateBooking_append]
          · apply confirmedDisjointDay_append _ _ hinv
            intro x hx hxc hbc
            simp at hbc
          · intro x hx
            exact (hids x hx).2
        · split at h
          · simp only [Prod.mk.injEq] at h
            exact h.2 ▸ hinv
          · unfold lockedSection at h
            split at h
            · dsimp only at h
              split at h
              · simp only [Prod.mk.injEq] at h
                have hb : s'.bookings = s.bookings := by
                  rw [← h.2, getIdempotency_bookings]
                exact confirmedDisjointDay_congr _ _ hb hinv
              · apply commitBooking_preserves _ _ _ _ _ _ _ _ h
                · exact confirmedDisjointDay_congr _ _ (getIdempotency_bookings _ _ _) hinv
                · intro x hx
                  exact (hids x (by rwa [getIdempotency_bookings] at hx)).1
                · exact hday
            · exact commitBooking_preserves _ _ _ _ _ _ _ _ h hinv
                (fun x hx => (hids x hx).1) hday

/-- C1 (amended): for a single createBooking call the guarded commit
does preserve the no-overlap invariant in the scope its conflict check
covers: if the store's CONFIRMED bookings that start on the same UTC
day never overlap on a shared table, the call's ids are fresh, and any
CONFIRMED booking it returns starts on the requested UTC day, then the
resulting store still satisfies that same-day invariant.  (The full
unscoped invariant is not preserved by every core operation: approval
re-checks nothing — see the counterexample — and the UTC-day store
filter is blind to bookings whose start falls outside the queried
day.) -/
theorem createBooking_preserves_confirmed_disjoint (now : Nat) (fresh : String)
    (a : BookingArgs) (s : Store) (r : Except BookingErr Booking) (s' : Store)
    (h : createBooking now fresh a s = (r, s'))
    (hinv : ConfirmedDisjointDay s.bookings)
    (hids : ∀ x ∈ s.bookings, x.id ≠ fresh ∧ x.id ≠ "BK_" ++ fresh)
    (hday : ∀ b, r = .ok b → b.status = .CONFIRMED → dayIndex b.start = a.date) :
    ConfirmedDisjointDay s'.bookings := by
  unfold createBooking at h
  split at h
  · simp only [Prod.mk.injEq] at h
    exact h.2 ▸ hinv
  · split at h
    · dsimp only at h
      split at h
      · simp only [Prod.mk.injEq] at h
        have hb : s'.bookings = s.bookings := by
          rw [← h.2, getIdempotency_bookings]
        exact confirmedDisjointDay_congr _ _ hb hinv
      · apply createBookingCore_preserves _ _ _ _ _ _ h
        · exact confirmedDisjointDay_congr _ _ (getIdempotency_bookings _ _ _) hinv
        · intro x hx
          exact hids x (by rwa [getIdempotency_bookings] at hx)
        · exact hday
    · exact createBookingCore_preserves _ _ _ _ _ _ h hinv hids hday

/-
Waitlist replay (claim C4).
-/

theorem createBookingCore_error_store_nokey (now : Nat) (fresh : String)
    (a : BookingArgs) (s : Store) (e : BookingErr) (s' : Store)
    (hk : a.idempotencyKey = none)
    (h : createBookingCore now fresh a s = (.error e, s')) : s' = s := by
  unfold createBookingCore at h
  split at h
  · simp only [Prod.mk.injEq] at h
    exact h.2.symm
  · split at h
    · simp only [Prod.mk.injEq] at h
      exact h.2.symm
    · split at h
      · simp only [Prod.mk.injEq] at h
        exact h.2.symm
      · split at h
        · unfold waitlistPathB at h
          simp at h
        · split at h
          · simp only [Prod.mk.injEq] at h
            exact h.2.symm
          · unfold lockedSection at h
            rw [hk] at h
            exact commitBooking_error_store _ _ _ _ _ _ _ _ h

theorem createBooking_error_store_nokey (now : Nat) (fresh : String)
    (a : BookingArgs) (s : Store) (e : BookingErr) (s' : Store)
    (hk : a.idempotencyKey = none)
    (h : createBooking now fresh a s = (.error e, s')) : s' = s := by
  unfold createBooking at h
  split at h
  · simp only [Prod.mk.injEq] at h
    exact h.2.symm
  · rw [hk] at h
    exact createBookingCore_error_store_nokey _ _ _ _ _ _ hk h

theorem dbCreateBooking_waitlist (s : Store) (b : Booking) :
    (dbCreateBooking s b).waitlist = s.waitlist := rfl

theorem commitBooking_waitlist (now : Nat) (fresh : String) (a : BookingArgs)
    (th : Nat) (cand : Candidate) (s : Store) :
    ((commitBooking now fresh a th cand s).2).waitlist = s.waitlist := by
  unfold commitBooking
  by_cases hc : hasConflictCheck s cand a.date = true
  · rw [if_pos hc]
  · rw [if_neg hc]
    dsimp only
    cases a.idempotencyKey <;> rfl

theorem createWaitlistEntry_waitlist (s : Store) (e : WaitlistEntry)
    (h : ∀ y ∈ s.waitlist, y.id ≠ e.id) :
    (createWaitlistEntry s e).waitlist = s.waitlist ++ [e] := by
  unfold createWaitlistEntry
  have hany : s.waitlist.any (fun x => x.id == e.id) = false := by
    rw [List.any_eq_false]
    intro x hx
    simpa using h x hx
  rw [hany]
  rfl

theorem createBookingCore_waitlist_superset (now : Nat) (fresh : String)
    (a : BookingArgs) (s : Store)
    (hfresh : ∀ y ∈ s.waitlist, y.id ≠ "WL_" ++ fresh)
    (x : WaitlistEntry) (hx : x ∈ s.waitlist) :
    x ∈ ((createBookingCore now fresh a s).2).waitlist := by
  unfold createBookingCore
  split
  · exact hx
  · split
    · exact hx
    · split
      · exact hx
      · split
        · unfold waitlistPathB
          dsimp only
          rw [dbCreateBooking_waitlist, createWaitlistEntry_waitlist _ _ hfresh]
          exact List.mem_append_left _ hx
        · split
          · exact hx
          · unfold lockedSection
            split
            · dsimp only
              split
              · rw [getIdempotency_waitlist]
                exact hx
              · rw [commitBooking_waitlist, getIdempotency_waitlist]
                exact hx
            · rw [commitBooking_waitlist]
              exact hx

theorem createBooking_waitlist_superset (now : Nat) (fresh : String)
    (a : BookingArgs) (s : Store)
    (hfresh : ∀ y ∈ s.waitlist, y.id ≠ "WL_" ++ fresh)
    (x : WaitlistEntry) (hx : x ∈ s.waitlist) :
    x ∈ ((createBooking now fresh a s).2).waitlist := by
  unfold createBooking
  split
  · exact hx
  · split
    · dsimp only
      split
      · rw [getIdempotency_waitlist]
        exact hx
      · apply createBookingCore_waitlist_superset
        · intro y hy
          rw [getIdempotency_waitlist] at hy
          exact hfresh y hy
        · rw [getIdempotency_waitlist]
          exact hx
    · exact createBookingCore_waitlist_superset _ _ _ _ hfresh _ hx

/-- Whether the replayed booking transaction for entry `e` (run against
store `s`) succeeds. -/
def attemptOk (now : Nat) (fresh : String) (s : Store) (e : WaitlistEntry) : Bool :=
  match (createBooking now fresh (entryArgs e) s).1 with
  | .ok _ => true
  | .error _ => false

theorem promoteLoop_mem_preserved (now : Nat) (fresh : String) :
    ∀ (l : List WaitlistEntry) (s : Store) (x : WaitlistEntry),
    (∀ e ∈ l, ¬ e.expiresAt < now) →
    (∀ y ∈ s.waitlist, y.id ≠ "WL_" ++ fresh) →
    x ∈ s.waitlist →
    (∀ p ∈ (promoteLoop now fresh l s).1, x.id ≠ p.id) →
    x ∈ ((promoteLoop now fresh l s).2).waitlist := by
  intro l
  induction l with
  | nil =>
    intro s x _ _ hx _
    exact hx
  | cons e rest ih =>
    intro s x hunexp hfresh hx hnp
    have hne : ¬ e.expiresAt < now := hunexp e (List.mem_cons_self _ _)
    rcases hcb : createBooking now fresh (entryArgs e) s with ⟨r1, s1⟩
    cases r1 with
    | ok b =>
      have hmem : x ∈ s1.waitlist := by
        have := createBooking_waitlist_superset now fresh (entryArgs e) s hfresh x hx
        rwa [hcb] at this
      have hxe : x.id ≠ e.id := by
        apply hnp
        unfold promoteLoop
        rw [if_neg hne, hcb]
        exact List.mem_cons_self _ _
      unfold promoteLoop
      rw [if_neg hne, hcb]
      dsimp only
      unfold deleteWaitlistEntry
      exact List.mem_filter.mpr ⟨hmem, by simpa using hxe⟩
    | error err =>
      have hs1 : s1 = s := createBooking_error_store_nokey _ _ _ _ _ _ rfl hcb
      rw [hs1] at hcb
      unfold promoteLoop
      rw [if_neg hne, hcb]
      dsimp only
      apply ih s x (fun q hq => hunexp q (List.mem_cons_of_mem _ hq)) hfresh hx
      intro p hp
      apply hnp
      unfold promoteLoop
      rw [if_neg hne, hcb]
      exact hp

theorem promoteLoop_spec (now : Nat) (fresh : String) :
    ∀ (l : List WaitlistEntry) (s : Store),
    (∀ e ∈ l, ¬ e.expiresAt < now) →
    (∀ e ∈ l, e ∈ s.waitlist) →
    l.Pairwise (fun x y => x.id ≠ y.id) →
    (∀ y ∈ s.waitlist, y.id ≠ "WL_" ++ fresh) →
    (promoteLoop now fresh l s).1 = (l.filter (attemptOk now fresh s)).take 1
    ∧ (∀ e ∈ l.takeWhile (fun e => !(attemptOk now fresh s e)),
        e ∈ ((promoteLoop now fresh l s).2).waitlist)
    ∧ (∀ p ∈ (promoteLoop now fresh l s).1,
        ∀ x ∈ ((promoteLoop now fresh l s).2).waitlist, x.id ≠ p.id) := by
  intro l
  induction l with
  | nil =>
    intro s _ _ _ _
    exact ⟨rfl, by simp [promoteLoop], by simp [promoteLoop]⟩
  | cons e rest ih =>
    intro s hunexp hsub hids hfresh
    have hne : ¬ e.expiresAt < now := hunexp e (List.mem_cons_self _ _)
    rcases hcb : createBooking now fresh (entryArgs e) s with ⟨r1, s1⟩
    cases r1 with
    | ok b =>
      have hok : attemptOk now fresh s e = true := by
        unfold attemptOk
        rw [hcb]
      unfold promoteLoop
      rw [if_neg hne, hcb]
      dsimp only
      refine ⟨?_, ?_, ?_⟩
      · simp [List.filter_cons, hok]
      · intro q hq
        rw [List.takeWhile_cons] at hq
        simp only [hok] at hq
        simp at hq
      · intro p hp x hxmem
        rw [List.mem_singleton] at hp
        subst hp
        unfold deleteWaitlistEntry at hxmem
        rcases List.mem_filter.mp hxmem with ⟨_, hxe⟩
        simpa using hxe
    | error err =>
      have hs1 : s1 = s := createBooking_error_store_nokey _ _ _ _ _ _ rfl hcb
      rw [hs1] at hcb
      have hok : attemptOk now fresh s e = false := by
        unfold attemptOk
        rw [hcb]
      obtain ⟨ih1, ih2, ih3⟩ := ih s
        (fun q hq => hunexp q (List.mem_cons_of_mem _ hq))
        (fun q hq => hsub q (List.mem_cons_of_mem _ hq))
        (List.pairwise_cons.mp hids).2 hfresh
      have hhead := (List.pairwise_cons.mp hids).1
      unfold promoteLoop
      rw [if_neg hne, hcb]
      dsimp only
      refine ⟨?_, ?_, ?_⟩
      · rw [List.filter_cons]
        simp only [hok, cond_false]
        exact ih1
      · intro q hq
        rw [List.takeWhile_cons] at hq
        simp only [hok, Bool.not_false, if_pos] at hq
        rcases List.mem_cons.mp hq with rfl | hq
        · apply promoteLoop_mem_preserved now fresh rest s q
            (fun z hz => hunexp z (List.mem_cons_of_mem _ hz)) hfresh
            (hsub q (List.mem_cons_self _ _))
          intro p hp
          rw [ih1] at hp
          have hp' : p ∈ rest :=
            List.mem_of_mem_filter (List.mem_of_mem_take hp)
          exact hhead p hp'
        · exact ih2 q hq
      · exact ih3

/-- C4: waitlist replay processes exactly the unexpired entries for the
sector and date, in FIFO creation order; it re-runs the booking
transaction with each entry's frozen parameters against the store,
promotes precisely the first entry whose transaction succeeds (at most
one per release event), removes that entry, and leaves every earlier,
failing entry queued. -/
theorem tryPromoteWaitlist_fifo (now : Nat) (fresh sec : String) (d : Nat) (s : Store)
    (hids : (processedEntries s sec d now).Pairwise (fun x y => x.id ≠ y.id))
    (hfresh : ∀ y ∈ s.waitlist, y.id ≠ "WL_" ++ fresh) :
    (∀ e ∈ processedEntries s sec d now, now < e.expiresAt)
    ∧ (tryPromoteWaitlist now fresh sec d s).1
        = ((processedEntries s sec d now).filter (attemptOk now fresh s)).take 1
    ∧ (∀ e ∈ (processedEntries s sec d now).takeWhile
          (fun e => !(attemptOk now fresh s e)),
        e ∈ ((tryPromoteWaitlist now fresh sec d s).2).waitlist)
    ∧ (∀ p ∈ (tryPromoteWaitlist now fresh sec d s).1,
        ∀ x ∈ ((tryPromoteWaitlist now fresh sec d s).2).waitlist, x.id ≠ p.id) := by
  have hexp : ∀ e ∈ processedEntries s sec d now, now < e.expiresAt := by
    intro e he
    unfold processedEntries at he
    rw [mem_sortLe] at he
    unfold getWaitlistEntriesBySectorAndDate at he
    rw [mem_sortLe, List.mem_filter] at he
    have h2 := he.2
    simp only [Bool.and_eq_true, decide_eq_true_eq] at h2
    exact h2.2
  have hsub : ∀ e ∈ processedEntries s sec d now, e ∈ s.waitlist := by
    intro e he
    unfold processedEntries at he
    rw [mem_sortLe] at he
    unfold getWaitlistEntriesBySectorAndDate at he
    rw [mem_sortLe, List.mem_filter] at he
    exact he.1
  obtain ⟨h1, h2, h3⟩ := promoteLoop_spec now fresh (processedEntries s sec d now) s
    (fun e he => by have := hexp e he; omega) hsub hids hfresh
  exact ⟨hexp, h1, h2, h3⟩

/-
Route-level service-window rejection (claim C2).
-/

/-- C2 (amended): the outside_service_window rejection for a requested
window that intersects no configured service window is enforced by the
HTTP route's pre-check (assertWindowWithinService), which runs before
createBooking: under those conditions POST /woki/bookings fails with
outside_service_window and an unchanged store.  The bare createBooking
function does not raise this condition for a non-intersecting window —
it takes the implicit-waitlist path instead (see the counterexample) —
so the rejection lives at the request level, not inside the
transaction. -/
theorem postBooking_outside_window_rejects (now : Nat) (fresh : String)
    (a : BookingArgs) (s : Store) (r : Restaurant) (u v : Nat)
    (hdur : a.durationMinutes % 15 = 0)
    (hr : getRestaurant s a.restaurantId = some r)
    (hw : r.windows ≠ [])
    (hu : a.windowStart = some u) (hv : a.windowEnd = some v)
    (hno : ∀ w ∈ r.windows,
      ¬ (resolveTime a.date r.tzOff u < resolveTime a.date r.tzOff w.2 ∧
         resolveTime a.date r.tzOff w.1 < resolveTime a.date r.tzOff v)) :
    postBooking now fresh a s = (.error .outside_service_window, s) := by
  have hassert : assertWindowWithinService a.date r.tzOff a.windowStart a.windowEnd
      r.windows = false := by
    unfold assertWindowWithinService
    rw [hu, hv]
    dsimp only
    rw [if_neg (by simpa [List.isEmpty_iff] using hw)]
    rw [List.any_eq_false]
    intro w hwm
    have hnw := hno w hwm
    simp only [Bool.and_eq_true, decide_eq_true_eq]
    tauto
  unfold postBooking
  rw [if_neg (by simp [hdur]), hr]
  dsimp only
  rw [hassert]
  rfl

/-
Concrete fixtures for the counterexamples, the code-bug evaluation and
the witnesses.
-/

/-- A venue with one service window 10:00..12:00, zero UTC offset. -/
def fixR : Restaurant := ⟨"R1", 0, [(600, 720)], none⟩

/-- One sector with one 2..4-seat table, empty day. -/
def fixStore : Store := ⟨[fixR], [⟨"S1", "R1"⟩], [⟨"T1", "S1", 2, 4⟩], [], [], [], []⟩

/-- Party of 2, 60 minutes, day 0, no key, no requested window. -/
def fixArgs : BookingArgs := ⟨"R1", "S1", 2, 60, 0, none, none, none⟩

/-- The same request carrying idempotency key "K". -/
def fixArgsKey : BookingArgs := ⟨"R1", "S1", 2, 60, 0, some "K", none, none⟩

/-- The same request with requested window 13:20..15:00: it intersects
no service window of `fixR`. -/
def fixArgsOutside : BookingArgs := ⟨"R1", "S1", 2, 60, 0, none, some 800, some 900⟩

/-- The request `fixArgs` made invalid (party size 0). -/
def fixArgsBad : BookingArgs := ⟨"R1", "S1", 0, 60, 0, none, none, none⟩

/-- The booking `createBooking 0 "X"` commits on `fixStore`: the first
slot 10:00..11:00 on table T1. -/
def wB1 : Booking :=
  ⟨"X", "R1", "S1", ["T1"], 2, 600, 660, 60, BookingStatus.CONFIRMED, 0, 0⟩

/-- The PENDING placeholder the waitlist path of `fixArgsOutside`
returns. -/
def wPend : Booking :=
  ⟨"BK_X", "R1", "S1", [], 2, 800, 860, 60, BookingStatus.PENDING, 0, 0⟩

/-- The top candidate findCandidates returns on `fixStore`. -/
def wCand : Candidate :=
  ⟨CandidateKind.single, ["T1"], 600, 660, 2, 4, 6020,
    "single table, capacity: 2-4, 2 seats spare"⟩

/-- A CONFIRMED and an overlapping PENDING booking on the same table. -/
def cexStore : Store :=
  ⟨[], [], [],
    [⟨"B1", "R1", "S1", ["T1"], 2, 800, 900, 60, BookingStatus.CONFIRMED, 0, 0⟩,
     ⟨"B2", "R1", "S1", ["T1"], 12, 850, 950, 100, BookingStatus.PENDING, 0, 0⟩],
    [], [], []⟩

/-- A table with a blackout 10:50..11:40 and a venue with no service
windows. -/
def fixBlackoutStore : Store := ⟨[], [], [], [], [], [⟨"BL1", "T1", 650, 700⟩], []⟩

/-- A venue whose single service window starts at 12:07, off the
15-minute grid. -/
def fixStore727 : Store :=
  ⟨[⟨"R5", 0, [(727, 850)], none⟩], [⟨"S1", "R5"⟩], [⟨"T1", "S1", 2, 4⟩],
    [], [], [], []⟩

/-- An expired and an unexpired waitlist entry for sector S1, day 0. -/
def fixEntry : WaitlistEntry := ⟨"WL_A", "R1", "S1", 2, 60, 0, none, none, 1, 100⟩

def fixEntryExpired : WaitlistEntry := ⟨"WL_B", "R1", "S1", 2, 60, 0, none, none, 0, 5⟩

def fixPromoteStore : Store :=
  ⟨[fixR], [⟨"S1", "R1"⟩], [⟨"T1", "S1", 2, 4⟩], [], [], [],
    [fixEntryExpired, fixEntry]⟩

/-
Counterexamples, the code-bug evaluation, and witnesses.
-/

/-- C1 counterexample: a state holding a CONFIRMED booking 13:20..15:00
and a PENDING booking 14:10..15:50 on the same table satisfies the
claimed invariant, approval of the PENDING booking succeeds without any
overlap check, and afterwards two CONFIRMED bookings on table T1
overlap — both the unscoped invariant and its same-UTC-day restriction
fail, so the invariant is not preserved by the approval operation.
(Such a state is reachable: a large-group createBooking commits a
PENDING booking whose slot is not blocked for later CONFIRMED
bookings.) -/
theorem approve_breaks_confirmed_disjoint :
    ConfirmedDisjoint cexStore.bookings ∧
    ConfirmedDisjointDay cexStore.bookings ∧
    (approveBooking 5 "B2" cexStore).1 =
      Except.ok ⟨"B2", "R1", "S1", ["T1"], 12, 850, 950, 100,
        BookingStatus.CONFIRMED, 0, 5⟩ ∧
    ¬ ConfirmedDisjoint ((approveBooking 5 "B2" cexStore).2).bookings ∧
    ¬ ConfirmedDisjointDay ((approveBooking 5 "B2" cexStore).2).bookings := by
  decide

/-- Witness for the amended C1 theorem at a concrete input. -/
theorem createBooking_preserves_confirmed_disjoint_witness :
    ConfirmedDisjointDay fixStore.bookings ∧
    ConfirmedDisjointDay ((createBooking 0 "X" fixArgs fixStore).2).bookings :=
  ⟨by decide,
   createBooking_preserves_confirmed_disjoint 0 "X" fixArgs fixStore
     (createBooking 0 "X" fixArgs fixStore).1 (createBooking 0 "X" fixArgs fixStore).2
     rfl (by decide) (by decide)
     (fun b hb hst => by
       have h2 : (createBooking 0 "X" fixArgs fixStore).1 = Except.ok wB1 := by decide
       rw [h2] at hb
       injection hb with h3
       rw [← h3]
       decide)⟩

/-- C2 counterexample: the requested window 13:20..15:00 intersects no
configured service window of the venue, yet the createBooking function
succeeds, returning a PENDING waitlist placeholder instead of failing
with outside_service_window. -/
theorem createBooking_outside_window_succeeds :
    (∀ w ∈ fixR.windows,
      ¬ (resolveTime 0 fixR.tzOff 800 < resolveTime 0 fixR.tzOff w.2 ∧
         resolveTime 0 fixR.tzOff w.1 < resolveTime 0 fixR.tzOff 900)) ∧
    (createBooking 0 "X" fixArgsOutside fixStore).1 = Except.ok wPend ∧
    wPend.status = BookingStatus.PENDING := by
  decide

/-- Witness for the amended C2 theorem at a concrete input. -/
theorem postBooking_outside_window_rejects_witness :
    postBooking 0 "X" fixArgsOutside fixStore
      = (.error .outside_service_window, fixStore) :=
  postBooking_outside_window_rejects 0 "X" fixArgsOutside fixStore fixR 800 900
    (by decide) (by decide) (by decide) rfl rfl (by decide)

/-- C3: with no service windows findTableGaps returns the whole open
day 00:00..23:59 even though a blackout 10:50..11:40 exists for the
table: the no-windows early return skips filterGapsByBlackouts, whose
subtraction on the same input would split the gap; the instant 11:00
inside the blackout is reported free. -/
theorem findTableGaps_no_windows_skips_blackouts :
    findTableGaps fixBlackoutStore "T1" 0 0 [] = [⟨0, 1439⟩] ∧
    filterGapsByBlackouts [⟨0, 1439⟩] (getBlackoutsByTables fixBlackoutStore ["T1"])
      = [⟨0, 650⟩, ⟨700, 1439⟩] ∧
    coversAny (findTableGaps fixBlackoutStore "T1" 0 0 []) 660 := by
  decide

/-- Witness for the C4 theorem at a concrete input: one expired and one
unexpired entry; the unexpired one is promoted. -/
theorem tryPromoteWaitlist_fifo_witness :
    (processedEntries fixPromoteStore "S1" 0 10).Pairwise (fun x y => x.id ≠ y.id) ∧
    (tryPromoteWaitlist 10 "F" "S1" 0 fixPromoteStore).1
      = ((processedEntries fixPromoteStore "S1" 0 10).filter
          (attemptOk 10 "F" fixPromoteStore)).take 1 :=
  ⟨by decide,
   (tryPromoteWaitlist_fifo 10 "F" "S1" 0 fixPromoteStore (by decide) (by decide)).2.1⟩

/-- C5 counterexample: with the service window starting 12:07 (minute
727), every candidate findCandidates returns starts and ends off the
window-start grid: the offsets from the window start are not multiples
of 15 minutes (the code rounds to the absolute clock's quarter hours,
not relative to the window start). -/
theorem candidate_start_not_window_aligned :
    ∃ c ∈ findCandidates fixStore727 "S1" 0 2 60 [(727, 850)] 0 none none 10,
      (c.start - 727) % 15 ≠ 0 ∧ (c.end_ - 727) % 15 ≠ 0 := by
  decide

/-- Witness for the amended C5 theorem at a concrete input. -/
theorem filterGapsByDuration_grid_witness :
    60 % 15 = 0 ∧ (⟨735, 735 + 60⟩ : Gap) ∈ filterGapsByDuration [⟨727, 850⟩] 60 15 :=
  ⟨by decide,
   (filterGapsByDuration_grid [⟨727, 850⟩] 60 (by decide)).2.1 ⟨727, 850⟩
     (by decide) 735 (by decide) (by decide) (by decide)⟩

/-- Witness for the C8 theorem at a concrete input. -/
theorem intersectGaps_exact_witness :
    sortedByStart [(⟨0, 10⟩ : Gap)] ∧ sortedByStart [(⟨5, 15⟩ : Gap)] ∧
    (coversAny (intersectGaps [⟨0, 10⟩] [⟨5, 15⟩]) 7 ↔
      coversAny [(⟨0, 10⟩ : Gap)] 7 ∧ coversAny [(⟨5, 15⟩ : Gap)] 7) ∧
    (coversAny ([[(⟨5, 15⟩ : Gap)]].foldl intersectGaps [⟨0, 10⟩]) 7 ↔
      coversAny [(⟨0, 10⟩ : Gap)] 7 ∧ ∀ l ∈ [[(⟨5, 15⟩ : Gap)]], coversAny l 7) :=
  ⟨by decide, by decide,
   (intersectGaps_exact [⟨0, 10⟩] [⟨5, 15⟩] (by decide) (by decide)
     [[⟨5, 15⟩]] (by decide) 7).1,
   (intersectGaps_exact [⟨0, 10⟩] [⟨5, 15⟩] (by decide) (by decide)
     [[⟨5, 15⟩]] (by decide) 7).2⟩

/-- Witness for the C7 theorem at a concrete input: a first call
commits and caches under key "K", a second identical call returns the
same booking and the untouched store. -/
theorem createBooking_idempotent_replay_witness :
    createBooking 0 "X" fixArgsKey fixStore
        = (.ok wB1, (createBooking 0 "X" fixArgsKey fixStore).2) ∧
    createBooking 0 "Y" fixArgsKey (createBooking 0 "X" fixArgsKey fixStore).2
        = (.ok wB1, (createBooking 0 "X" fixArgsKey fixStore).2) :=
  ⟨by decide,
   createBooking_idempotent_replay 0 0 "X" "Y" "K" fixArgsKey rfl fixStore
     (createBooking 0 "X" fixArgsKey fixStore).2 wB1 (by decide) (by decide)⟩

/-- Witness for the C9 theorem at a concrete input: an invalid request
(party size 0) fails and the booking store is unchanged. -/
theorem createBooking_error_bookings_unchanged_witness :
    createBooking 0 "X" fixArgsBad fixStore
        = (.error .invalid_input, (createBooking 0 "X" fixArgsBad fixStore).2) ∧
    ((createBooking 0 "X" fixArgsBad fixStore).2).bookings = fixStore.bookings :=
  ⟨by decide,
   createBooking_error_bookings_unchanged 0 "X" fixArgsBad fixStore .invalid_input
     (createBooking 0 "X" fixArgsBad fixStore).2 (by decide)⟩

/-- Witness for the C10 theorem at a concrete input. -/
theorem findCandidates_duration_exact_witness :
    wCand ∈ findCandidates fixStore "S1" 0 2 60 [(600, 720)] 0 none none 10 ∧
    wCand.end_ = wCand.start + 60 :=
  ⟨by decide,
   findCandidates_duration_exact fixStore "S1" 0 2 60 [(600, 720)] 0 none none 10
     wCand (by decide)⟩

end WokiBrain
